import Mathlib

/-!
# retropad: undo/redo history and find/replace

A shallow embedding of the history manager and the search/replace engine of
`src/retropad.c`.

Conventions of the embedding.

* A C string is the list of its bytes (each a `Nat` below 256), the terminating
  NUL excluded.  A pointer into a string is an offset into that list.
* The text buffer of the editor is represented by the UTF-8 bytes that
  `gtk_text_buffer_get_text` hands out, together with the offset of the insert
  mark, counted in characters as `gtk_text_iter_get_offset` does.
* A `GQueue` is the list of its elements, head first: `g_queue_push_tail`
  appends at the end, `g_queue_pop_tail` removes the last element and
  `g_queue_pop_head` the first.
* Loops whose termination is not evident from the shape of the data take a
  fuel argument counting iterations; `none` means the loop was still running
  when the fuel ran out.
* Lengths and offsets are natural numbers: texts are taken to be shorter than
  2^31 bytes, so that `int` and `gint` do not overflow.
-/

namespace Retropad

/-! ## C library and GLib primitives -/

/-- The bytes of an ASCII string literal. -/
def ascii (s : String) : List Nat := s.toList.map Char.toNat

/-- The function `g_ascii_tolower`: upper-case ASCII letters are moved to lower
case, every other byte is returned as it is. -/
def g_ascii_tolower (c : Nat) : Nat :=
  if 65 ≤ c ∧ c ≤ 90 then c - 65 + 97 else c

/-- The loop `while (*p) { *p = g_ascii_tolower(*p); p++; }` over a whole
string. -/
def lowerInPlace (s : List Nat) : List Nat := s.map g_ascii_tolower

/-- The function `strstr(haystack, needle)` as the offset of the first
occurrence of `needle` in `haystack`, `none` for `NULL`. -/
def strstr : List Nat → List Nat → Option Nat
  | [], needle => if needle.isPrefixOf [] then some 0 else none
  | c :: hay, needle =>
    if needle.isPrefixOf (c :: hay) then some 0
    else (strstr hay needle).map (· + 1)

/-- The call `strstr(buf + p, needle)`, the result again as an offset into
`buf`. -/
def strstrAt (buf : List Nat) (p : Nat) (needle : List Nat) : Option Nat :=
  (strstr (buf.drop p) needle).map (· + p)

/-- The function `g_string_append_len(string, val, len)` on the string that
starts at `val`: a negative `len` asks for the whole of `val`. -/
def g_string_append_len (string val : List Nat) (len : Int) : List Nat :=
  if len < 0 then string ++ val else string ++ val.take len.toNat

/-- The function `g_string_append(string, val)`. -/
def g_string_append (string val : List Nat) : List Nat := string ++ val

/-- The copy made by `strncpy(dst, src, MAX_PATH_BUFFER - 1)` into a zeroed
buffer of `MAX_PATH_BUFFER` bytes, read back as a C string. -/
def strncpyPath (src : List Nat) : List Nat := src.take 1023

/-! ## Data model -/

/-- The constant `MAX_UNDO_STACK`. -/
def MAX_UNDO_STACK : Nat := 100

/-- The enumeration `TextEncoding` of `file_io.h`. -/
inductive TextEncoding where
  | ENC_UTF8
  | ENC_UTF16LE
  | ENC_UTF16BE
  | ENC_ANSI
  deriving DecidableEq, Repr

/-- The structure `UndoRedoEntry`: a copy of the text and the cursor offset. -/
structure UndoRedoEntry where
  text : List Nat
  cursorPos : Nat
  deriving DecidableEq, Repr

/-- The part of `AppState` (together with the contents of `textBuffer`) that the
history manager, the search engine and the document operations read or
write.  The widgets are left out. -/
structure AppState where
  /-- contents of `textBuffer`, as UTF-8 bytes -/
  text : List Nat
  /-- offset of the insert mark of `textBuffer`, in characters -/
  cursor : Nat
  currentPath : List Nat
  modified : Bool
  encoding : TextEncoding
  matchCase : Bool
  undoStack : List UndoRedoEntry
  redoStack : List UndoRedoEntry
  isUndoRedoInProgress : Bool
  deriving DecidableEq, Repr

/-- The state that `main` sets up before entering the main loop. -/
def initialState : AppState :=
  { text := [], cursor := 0, currentPath := [], modified := false,
    encoding := TextEncoding.ENC_UTF8, matchCase := false,
    undoStack := [], redoStack := [], isUndoRedoInProgress := false }

/-! ## Text buffer primitives of the toolkit -/

/-- The number of characters of a valid UTF-8 text
(`gtk_text_buffer_get_char_count`): the bytes that are not continuation bytes
`10xxxxxx`. -/
def charCount (t : List Nat) : Nat := (t.filter (fun b => b / 64 != 2)).length

/-- The function `gtk_text_buffer_get_iter_at_offset`: the iterator at a
character offset, the end iterator when the offset is larger than the number
of characters in the buffer.  An iterator is represented by its offset. -/
def gtk_text_buffer_get_iter_at_offset (st : AppState) (charOffset : Nat) : Nat :=
  min charOffset (charCount st.text)

/-- The function `gtk_text_buffer_place_cursor`. -/
def gtk_text_buffer_place_cursor (st : AppState) (iter : Nat) : AppState :=
  { st with cursor := iter }

/-- The function `GetEditText`: the whole text of the buffer. -/
def GetEditText (st : AppState) : List Nat := st.text

/-! ## History manager -/

/-- The function `CreateUndoEntry`: a snapshot of the buffer as it is now. -/
def CreateUndoEntry (st : AppState) : UndoRedoEntry :=
  { text := GetEditText st, cursorPos := st.cursor }

/-- The loop `while (g_queue_get_length(q) >= MAX_UNDO_STACK) pop_head(q)` of
`PushUndoStack`. -/
def limitUndoStack : List UndoRedoEntry → List UndoRedoEntry
  | [] => []
  | e :: rest =>
    if (e :: rest).length ≥ MAX_UNDO_STACK then limitUndoStack rest else e :: rest

/-- The function `PushUndoStack`. -/
def PushUndoStack (st : AppState) : AppState :=
  if st.isUndoRedoInProgress then st
  else
    let st1 := { st with undoStack := limitUndoStack st.undoStack }
    { st1 with undoStack := st1.undoStack ++ [CreateUndoEntry st1] }

/-- The function `ClearRedoStack`. -/
def ClearRedoStack (st : AppState) : AppState :=
  { st with redoStack := [] }

/-- The handler `on_text_changed` of the `changed` signal, which the buffer
emits after its contents have changed. -/
def on_text_changed (st : AppState) : AppState :=
  let st1 := if !st.isUndoRedoInProgress then ClearRedoStack (PushUndoStack st) else st
  { st1 with modified := true }

/-- The function `gtk_text_buffer_set_text`: the old contents are deleted (a
`changed` emission when there was something to delete), then the new text is
inserted at offset 0 (a second emission when it is not empty); the insert mark
ends up after the inserted text.  The new text is taken to be valid UTF-8, as
the toolkit requires of its caller. -/
def gtk_text_buffer_set_text (st : AppState) (new : List Nat) : AppState :=
  let st1 := if st.text = [] then st
             else on_text_changed { st with text := [], cursor := 0 }
  if new = [] then st1
  else on_text_changed { st1 with text := new, cursor := charCount new }

/-- An organic edit: the user changes the buffer, which then holds `text` with
the insert mark at `cursor`, and the buffer emits `changed`. -/
def organicEdit (text : List Nat) (cursor : Nat) (st : AppState) : AppState :=
  on_text_changed { st with text := text, cursor := cursor }

/-- The function `DoUndo`. -/
def DoUndo (st : AppState) : AppState :=
  if st.undoStack.isEmpty then st
  else
    let st1 := { st with isUndoRedoInProgress := true }
    let st2 := { st1 with redoStack := st1.redoStack ++ [CreateUndoEntry st1] }
    match st2.undoStack.getLast? with
    | none => { st2 with isUndoRedoInProgress := false }
    | some entry =>
      let st3 := { st2 with undoStack := st2.undoStack.dropLast }
      let st4 := gtk_text_buffer_set_text st3 entry.text
      let cursor := gtk_text_buffer_get_iter_at_offset st4 entry.cursorPos
      let st5 := gtk_text_buffer_place_cursor st4 cursor
      { st5 with isUndoRedoInProgress := false }

/-- The function `DoRedo`. -/
def DoRedo (st : AppState) : AppState :=
  if st.redoStack.isEmpty then st
  else
    let st1 := { st with isUndoRedoInProgress := true }
    let st2 := { st1 with undoStack := st1.undoStack ++ [CreateUndoEntry st1] }
    match st2.redoStack.getLast? with
    | none => { st2 with isUndoRedoInProgress := false }
    | some entry =>
      let st3 := { st2 with redoStack := st2.redoStack.dropLast }
      let st4 := gtk_text_buffer_set_text st3 entry.text
      let cursor := gtk_text_buffer_get_iter_at_offset st4 entry.cursorPos
      let st5 := gtk_text_buffer_place_cursor st4 cursor
      { st5 with isUndoRedoInProgress := false }

/-! ## Search and replace -/

/-- The function `FindInEdit`; the result is the pair of iterators
`(outStart, outEnd)`, `none` for `FALSE`. -/
def FindInEdit (needle : List Nat) (matchCase searchDown : Bool) (st : AppState) :
    Option (Nat × Nat) :=
  if needle = [] then none
  else
    let text := GetEditText st
    let haystack := if !matchCase then lowerInPlace text else text
    let needleBuf := if !matchCase then lowerInPlace needle else needle
    let searchPos := if !searchDown then 0 else st.cursor
    let found :=
      match strstrAt haystack searchPos needleBuf with
      | some q => some q
      | none => if searchDown then strstrAt haystack 0 needleBuf else none
    match found with
    | some pos =>
      some (gtk_text_buffer_get_iter_at_offset st pos,
            gtk_text_buffer_get_iter_at_offset st (pos + needle.length))
    | none => none

/-- The counting loop of `ReplaceAllOccurrences`:
`while ((p = strstr(p, needleBuf)) != NULL) { count++; p += strlen(needle); }`.
The result is the final `count`. -/
def countLoop (searchBuf needleBuf : List Nat) (needleLen : Nat) :
    Nat → Nat → Nat → Option Nat
  | 0, p, count =>
    match strstrAt searchBuf p needleBuf with
    | none => some count
    | some _ => none
  | fuel + 1, p, count =>
    match strstrAt searchBuf p needleBuf with
    | none => some count
    | some q => countLoop searchBuf needleBuf needleLen fuel (q + needleLen) (count + 1)

/-- The variables of the rebuilding loop of `ReplaceAllOccurrences`: `p` and
`searchBuf` as offsets into the lower-cased copy, `orig` as an offset into the
text, and the string built so far. -/
structure RebuildState where
  p : Nat
  searchBuf : Int
  orig : Int
  result : List Nat
  deriving DecidableEq, Repr

/-- One run of the body of the rebuilding loop, `q` being the value that
`strstr(p, needleBuf)` has just assigned to `p`. -/
def rebuildBody (text needle needleBuf : List Nat) (replacement : Option (List Nat))
    (s : RebuildState) (q : Nat) : RebuildState :=
  let delta : Int := (q : Int) - s.searchBuf
  let r1 := g_string_append_len s.result (text.drop s.orig.toNat) delta
  let r2 := match replacement with
            | some r => g_string_append r1 r
            | none => r1
  { p := q,
    searchBuf := s.searchBuf + (delta + needleBuf.length),
    orig := s.orig + (delta + needle.length),
    result := r2 }

/-- The rebuilding loop of `ReplaceAllOccurrences`:
`while ((p = strstr(p, needleBuf)) != NULL) { ... }`. -/
def rebuildLoop (text sbuf needle needleBuf : List Nat) (replacement : Option (List Nat)) :
    Nat → RebuildState → Option RebuildState
  | 0, s =>
    match strstrAt sbuf s.p needleBuf with
    | none => some s
    | some _ => none
  | fuel + 1, s =>
    match strstrAt sbuf s.p needleBuf with
    | none => some s
    | some q =>
      rebuildLoop text sbuf needle needleBuf replacement fuel
        (rebuildBody text needle needleBuf replacement s q)

/-- The function `ReplaceAllOccurrences`; a `NULL` replacement is `none`.  The
result is the returned count and the state the call leaves, `none` when one of
the two loops has not finished within `fuel` iterations. -/
def ReplaceAllOccurrences (fuel : Nat) (needle : List Nat) (replacement : Option (List Nat))
    (matchCase : Bool) (st : AppState) : Option (Nat × AppState) :=
  if needle = [] then some (0, st)
  else
    let text := GetEditText st
    let searchBuf := if !matchCase then lowerInPlace text else text
    let needleBuf := if !matchCase then lowerInPlace needle else needle
    match countLoop searchBuf needleBuf needle.length fuel 0 0 with
    | none => none
    | some count =>
      if count = 0 then some (0, st)
      else
        match rebuildLoop text searchBuf needle needleBuf replacement fuel
            { p := 0, searchBuf := 0, orig := 0, result := [] } with
        | none => none
        | some s =>
          let result := g_string_append s.result (text.drop s.orig.toNat)
          let st1 := gtk_text_buffer_set_text st result
          some (count, { st1 with modified := true })

/-! ## Document operations -/

/-- The answer the user gives in the "Save changes?" dialog: `GTK_RESPONSE_YES`,
`GTK_RESPONSE_NO`, or anything else. -/
inductive DialogResponse where
  | YES
  | NO
  | CANCEL
  deriving DecidableEq, Repr

/-- What the surroundings contribute to a run of `PromptSaveChanges`: the answer
in the message dialog, the file name picked in the file chooser (`none` when
that dialog is cancelled) and the outcome of `SaveTextFile`. -/
structure SaveAnswers where
  response : DialogResponse
  chosen : Option (List Nat)
  writeOk : Bool
  deriving DecidableEq, Repr

/-- The function `DoFileSave`. -/
def DoFileSave (saveAs : Bool) (env : SaveAnswers) (st : AppState) : Bool × AppState :=
  let finish (st1 : AppState) : Bool × AppState :=
    if env.writeOk then (true, { st1 with modified := false }) else (false, st1)
  if saveAs || st.currentPath = [] then
    match env.chosen with
    | none => (false, st)
    | some filename =>
      finish { st with currentPath := strncpyPath (strncpyPath filename) }
  else finish st

/-- The function `PromptSaveChanges`. -/
def PromptSaveChanges (env : SaveAnswers) (st : AppState) : Bool × AppState :=
  if !st.modified then (true, st)
  else
    match env.response with
    | DialogResponse.YES => DoFileSave false env st
    | DialogResponse.NO => (true, st)
    | DialogResponse.CANCEL => (false, st)

/-- The function `DoFileNew`. -/
def DoFileNew (env : SaveAnswers) (st : AppState) : AppState :=
  let r := PromptSaveChanges env st
  if !r.1 then r.2
  else
    let st1 := gtk_text_buffer_set_text r.2 []
    let st2 := { st1 with currentPath := [], encoding := TextEncoding.ENC_UTF8,
                          modified := false }
    let st3 := ClearRedoStack st2
    { st3 with undoStack := [] }

/-- The function `LoadDocumentFromPath`; `loaded` is what `LoadTextFile` gives
for the path: the decoded text and its encoding, `none` when it fails. -/
def LoadDocumentFromPath (path : List Nat) (loaded : Option (List Nat × TextEncoding))
    (st : AppState) : Bool × AppState :=
  match loaded with
  | none => (false, st)
  | some (text, enc) =>
    let st1 := gtk_text_buffer_set_text st text
    let st2 := { st1 with currentPath := strncpyPath path, encoding := enc,
                          modified := false }
    let st3 := ClearRedoStack st2
    (true, { st3 with undoStack := [] })

/-! ## Notions used in the statements -/

/-- The string that takes part in the comparison under the selected case rule:
itself when the case matters, its ASCII lower-casing otherwise. -/
def caseRule (matchCase : Bool) (s : List Nat) : List Nat :=
  if !matchCase then lowerInPlace s else s

/-- A session holding the given text with the insert mark at `cursor`, empty
history and no file. -/
def docState (text : List Nat) (cursor : Nat) : AppState :=
  { initialState with text := text, cursor := cursor }

/-- The snapshot that records an edit leading to `text` with the insert mark at
`cursor`. -/
def snapshotOf (e : List Nat × Nat) : UndoRedoEntry :=
  { text := e.1, cursorPos := e.2 }

/-- A sequence of organic edits, each given by the text and the cursor offset
the buffer holds after it. -/
def runEdits (edits : List (List Nat × Nat)) (st : AppState) : AppState :=
  edits.foldl (fun s e => organicEdit e.1 e.2 s) st

/-- The last `n` elements of a list. -/
def keepLast {α : Type} (n : Nat) (l : List α) : List α := l.drop (l.length - n)

/-- An entry whose cursor offset lies within its text. -/
def UndoRedoEntry.Valid (e : UndoRedoEntry) : Prop := e.cursorPos ≤ charCount e.text

/-- The insert mark lies within the text, in the buffer and in every snapshot
on the two stacks. -/
def WellFormed (st : AppState) : Prop :=
  st.cursor ≤ charCount st.text ∧
  (∀ e ∈ st.undoStack, UndoRedoEntry.Valid e) ∧
  (∀ e ∈ st.redoStack, UndoRedoEntry.Valid e)

instance (e : UndoRedoEntry) : Decidable (UndoRedoEntry.Valid e) := by
  unfold UndoRedoEntry.Valid; infer_instance

instance (st : AppState) : Decidable (WellFormed st) := by
  unfold WellFormed; infer_instance

/-- The states the session can be in between two actions of the user, starting
from the state at start-up. -/
inductive Reachable : AppState → Prop where
  | init : Reachable initialState
  | edit (st : AppState) (text : List Nat) (cursor : Nat) :
      Reachable st → cursor ≤ charCount text → Reachable (organicEdit text cursor st)
  | undo (st : AppState) : Reachable st → Reachable (DoUndo st)
  | redo (st : AppState) : Reachable st → Reachable (DoRedo st)
  | fileNew (st : AppState) (env : SaveAnswers) : Reachable st → Reachable (DoFileNew env st)
  | load (st : AppState) (path : List Nat) (loaded : Option (List Nat × TextEncoding)) :
      Reachable st → Reachable (LoadDocumentFromPath path loaded st).2
  | save (st : AppState) (saveAs : Bool) (env : SaveAnswers) :
      Reachable st → Reachable (DoFileSave saveAs env st).2
  | moveCursor (st : AppState) (iter : Nat) :
      Reachable st → iter ≤ charCount st.text → Reachable (gtk_text_buffer_place_cursor st iter)

/-- Every byte of the text is an ASCII character. -/
def IsAscii (t : List Nat) : Prop := ∀ b ∈ t, b < 128

instance (t : List Nat) : Decidable (IsAscii t) := by
  unfold IsAscii; infer_instance

/-! ## Character set conversion and file encoding -/

/-- A byte buffer read back as a C string: the bytes before the first NUL. -/
def cstr (buf : List Nat) : List Nat := buf.takeWhile (fun b => b != 0)

/-- The byte `data[i]` of a buffer. -/
def byteAt (data : List Nat) (i : Nat) : Nat := data.getD i 0

/-- The UTF-8 encoding of one code point. -/
def utf8EncodeChar (c : Nat) : List Nat :=
  if c < 128 then [c]
  else if c < 2048 then [192 + c / 64, 128 + c % 64]
  else if c < 65536 then [224 + c / 4096, 128 + c / 64 % 64, 128 + c % 64]
  else [240 + c / 262144, 128 + c / 4096 % 64, 128 + c / 64 % 64, 128 + c % 64]

/-- The UTF-8 encoding of a sequence of code points. -/
def utf8Encode (cps : List Nat) : List Nat := cps.flatMap utf8EncodeChar

/-- A continuation byte `10xxxxxx`. -/
def isContinuation (b : Nat) : Bool := 128 ≤ b && b < 192

/-- The code points of a UTF-8 byte sequence, `none` when the sequence is not
well-formed (a stray or missing continuation byte, an overlong form, a
surrogate, a value above 10FFFF). -/
def utf8Decode : List Nat → Option (List Nat)
  | [] => some []
  | b0 :: rest =>
    if b0 < 128 then (utf8Decode rest).map (List.cons b0)
    else
      match rest with
      | [] => none
      | b1 :: rest1 =>
        if 194 ≤ b0 ∧ b0 < 224 then
          if isContinuation b1 then
            (utf8Decode rest1).map (List.cons ((b0 - 192) * 64 + (b1 - 128)))
          else none
        else
          match rest1 with
          | [] => none
          | b2 :: rest2 =>
            if 224 ≤ b0 ∧ b0 < 240 then
              let c := (b0 - 224) * 4096 + (b1 - 128) * 64 + (b2 - 128)
              if isContinuation b1 ∧ isContinuation b2 ∧ 2048 ≤ c ∧
                  ¬ (55296 ≤ c ∧ c < 57344) then
                (utf8Decode rest2).map (List.cons c)
              else none
            else
              match rest2 with
              | [] => none
              | b3 :: rest3 =>
                if 240 ≤ b0 ∧ b0 < 245 then
                  let c := (b0 - 240) * 262144 + (b1 - 128) * 4096 + (b2 - 128) * 64
                    + (b3 - 128)
                  if isContinuation b1 ∧ isContinuation b2 ∧ isContinuation b3 ∧
                      65536 ≤ c ∧ c < 1114112 then
                    (utf8Decode rest3).map (List.cons c)
                  else none
                else none

/-- The UTF-16 encoding of one code point, as bytes in the given byte order. -/
def utf16EncodeChar (bigEndian : Bool) (c : Nat) : List Nat :=
  let unit (u : Nat) : List Nat := if bigEndian then [u / 256, u % 256] else [u % 256, u / 256]
  if c < 65536 then unit c
  else unit (55296 + (c - 65536) / 1024) ++ unit (56320 + (c - 65536) % 1024)

/-- The 16-bit units of a byte sequence in the given byte order, `none` when a
byte is left over. -/
def utf16Units (bigEndian : Bool) : List Nat → Option (List Nat)
  | [] => some []
  | [_] => none
  | a :: b :: rest =>
    (utf16Units bigEndian rest).map
      (List.cons (if bigEndian then a * 256 + b else a + b * 256))

/-- The code points of a sequence of UTF-16 units, `none` when a surrogate is
not part of a pair. -/
def utf16DecodeUnits : List Nat → Option (List Nat)
  | [] => some []
  | u :: rest =>
    if u < 55296 ∨ 57344 ≤ u then (utf16DecodeUnits rest).map (List.cons u)
    else
      match rest with
      | [] => none
      | v :: rest1 =>
        if u < 56320 ∧ 56320 ≤ v ∧ v < 57344 then
          (utf16DecodeUnits rest1).map
            (List.cons (65536 + (u - 55296) * 1024 + (v - 56320)))
        else none

/-- The call `g_convert(str, len, "UTF-8", "UTF-16LE" or "UTF-16BE", ...)`:
the converted bytes, `none` when the call sets `error`. -/
def g_convert_utf16_to_utf8 (bigEndian : Bool) (str : List Nat) : Option (List Nat) :=
  match utf16Units bigEndian str with
  | none => none
  | some units => (utf16DecodeUnits units).map utf8Encode

/-- The call `g_convert(str, len, "UTF-16LE", "UTF-8", ...)`: the converted
bytes, `none` when the call sets `error`. -/
def g_convert_utf8_to_utf16le (str : List Nat) : Option (List Nat) :=
  (utf8Decode str).map (fun cps => cps.flatMap (utf16EncodeChar false))

/-- The call `g_convert(str, len, "UTF-8", "ISO-8859-1", ...)`, which cannot
fail: every byte is a code point. -/
def g_convert_latin1_to_utf8 (str : List Nat) : Option (List Nat) :=
  some (utf8Encode str)

/-- The call `g_convert(str, len, "ISO-8859-1", "UTF-8", ...)`: the converted
bytes, `none` when the call sets `error`. -/
def g_convert_utf8_to_latin1 (str : List Nat) : Option (List Nat) :=
  match utf8Decode str with
  | none => none
  | some cps => if cps.all (fun c => c < 256) then some cps else none

/-- The function `DetectEncoding`; `size` is the length of `data`. -/
def DetectEncoding (data : List Nat) : TextEncoding :=
  if data.length ≥ 2 ∧ byteAt data 0 = 255 ∧ byteAt data 1 = 254 then
    TextEncoding.ENC_UTF16LE
  else if data.length ≥ 2 ∧ byteAt data 0 = 254 ∧ byteAt data 1 = 255 then
    TextEncoding.ENC_UTF16BE
  else if data.length ≥ 3 ∧ byteAt data 0 = 239 ∧ byteAt data 1 = 187 ∧ byteAt data 2 = 191 then
    TextEncoding.ENC_UTF8
  else TextEncoding.ENC_UTF8

/-- The function `DecodeToUTF8`: the text handed out in `outText`, a C string,
`none` for `FALSE`. -/
def DecodeToUTF8 (data : List Nat) (encoding : TextEncoding) : Option (List Nat) :=
  match encoding with
  | TextEncoding.ENC_UTF16LE =>
    if data.length < 2 then none
    else
      let byteOffset := if byteAt data 0 = 255 ∧ byteAt data 1 = 254 then 2 else 0
      (g_convert_utf16_to_utf8 false (data.drop byteOffset)).map cstr
  | TextEncoding.ENC_UTF16BE =>
    if data.length < 2 then none
    else
      let byteOffset := if byteAt data 0 = 254 ∧ byteAt data 1 = 255 then 2 else 0
      (g_convert_utf16_to_utf8 true (data.drop byteOffset)).map cstr
  | TextEncoding.ENC_UTF8 =>
    let byteOffset :=
      if data.length ≥ 3 ∧ byteAt data 0 = 239 ∧ byteAt data 1 = 187 ∧ byteAt data 2 = 191
      then 3 else 0
    some (cstr (data.drop byteOffset))
  | TextEncoding.ENC_ANSI =>
    (g_convert_latin1_to_utf8 data).map cstr

/-- The function `LoadTextFile`; `contents` is what `g_file_get_contents` reads
from the path, `none` when it fails.  The result is the text and the encoding
handed out, `none` for `FALSE`. -/
def LoadTextFile (contents : Option (List Nat)) : Option (List Nat × TextEncoding) :=
  match contents with
  | none => none
  | some buffer =>
    if buffer.length = 0 then some ([], TextEncoding.ENC_UTF8)
    else
      let enc := DetectEncoding buffer
      match DecodeToUTF8 buffer enc with
      | none => none
      | some text => some (text, enc)

/-- The function `WriteUTF8WithBOM`: the value returned and the bytes written
to the file, every `fwrite` taken to succeed. -/
def WriteUTF8WithBOM (text : List Nat) : Bool × List Nat :=
  (true, [239, 187, 191] ++ text)

/-- The function `WriteUTF16LE`: the value returned and the bytes written to
the file, every `fwrite` taken to succeed.  The length of the converted text is
taken with `strlen`. -/
def WriteUTF16LE (text : List Nat) : Bool × List Nat :=
  let bom := [255, 254]
  match g_convert_utf8_to_utf16le text with
  | none => (false, bom)
  | some converted =>
    let conv_len := (cstr converted).length
    (true, bom ++ converted.take conv_len)

/-- The function `WriteANSI`: the value returned and the bytes written to the
file, every `fwrite` taken to succeed. -/
def WriteANSI (text : List Nat) : Bool × List Nat :=
  match g_convert_utf8_to_latin1 text with
  | none => (false, [])
  | some converted =>
    let conv_len := (cstr converted).length
    (true, converted.take conv_len)

/-- The function `SaveTextFile` once the file has been opened: the value
returned and the contents of the file. -/
def SaveTextFile (text : List Nat) (encoding : TextEncoding) : Bool × List Nat :=
  match encoding with
  | TextEncoding.ENC_UTF16LE => WriteUTF16LE text
  | TextEncoding.ENC_ANSI => WriteANSI text
  | TextEncoding.ENC_UTF16BE => WriteUTF8WithBOM text
  | TextEncoding.ENC_UTF8 => WriteUTF8WithBOM text

/-! ## Find next -/

/-- The characters of a UTF-8 text: every byte that is not a continuation byte
starts a character, which the continuation bytes after it belong to. -/
def utf8Chars : List Nat → List (List Nat)
  | [] => []
  | b :: rest =>
    match utf8Chars rest with
    | (c :: cs) :: css =>
      if isContinuation c then (b :: c :: cs) :: css else [b] :: (c :: cs) :: css
    | css => [b] :: css

/-- The function `gtk_text_buffer_get_text` between two iterators: the
characters from offset `start` up to offset `stop`. -/
def gtk_text_buffer_get_text (st : AppState) (start stop : Nat) : List Nat :=
  (((utf8Chars st.text).drop start).take (stop - start)).flatten

/-- The function `gtk_text_buffer_select_range`: the insert mark goes to `ins`;
the selection bound, which goes to `bound`, is not part of the state. -/
def gtk_text_buffer_select_range (st : AppState) (ins _bound : Nat) : AppState :=
  { st with cursor := ins }

/-- What a call of `DoFindNext` does: the value returned, the range handed to
`gtk_text_buffer_select_range` if any, and the state left. -/
structure FindNextResult where
  returned : Bool
  selection : Option (Nat × Nat)
  state : AppState
  deriving DecidableEq, Repr

/-- The function `DoFindNext`; `needle` is the text of the find entry. -/
def DoFindNext (needle : List Nat) (reverse : Bool) (st : AppState) : FindNextResult :=
  if needle = [] then { returned := false, selection := none, state := st }
  else
    match FindInEdit needle st.matchCase (!reverse) st with
    | some (outStart, outEnd) =>
      { returned := true, selection := some (outStart, outEnd),
        state := gtk_text_buffer_select_range st outStart outEnd }
    | none => { returned := false, selection := none, state := st }

/-! ## The string search -/


theorem strstr_of_isPrefixOf (hay needle : List Nat) (h : needle.isPrefixOf hay = true) :
    strstr hay needle = some 0 := by
  cases hay <;> simp [strstr, h]

theorem strstr_some_spec (needle : List Nat) :
    ∀ (hay : List Nat) (i : Nat), strstr hay needle = some i →
      i ≤ hay.length ∧ needle <+: hay.drop i ∧ ∀ j, j < i → ¬ needle <+: hay.drop j := by
  intro hay
  induction hay with
  | nil =>
    intro i h
    by_cases hp : needle.isPrefixOf [] = true
    · simp [strstr, hp] at h
      subst h
      refine ⟨by simp, ?_, by simp⟩
      simpa using List.isPrefixOf_iff_prefix.mp hp
    · simp [strstr, hp] at h
  | cons c hay ih =>
    intro i h
    by_cases hp : needle.isPrefixOf (c :: hay) = true
    · rw [strstr_of_isPrefixOf _ _ hp] at h
      cases h
      refine ⟨by simp, ?_, by simp⟩
      simpa using List.isPrefixOf_iff_prefix.mp hp
    · simp only [strstr, hp] at h
      cases hs : strstr hay needle with
      | none => simp [hs] at h
      | some k =>
        simp [hs] at h
        subst h
        obtain ⟨h1, h2, h3⟩ := ih k hs
        refine ⟨by simpa using h1, by simpa using h2, ?_⟩
        intro j hj
        cases j with
        | zero =>
          intro hpre
          exact hp (List.isPrefixOf_iff_prefix.mpr (by simpa using hpre))
        | succ j => simpa using h3 j (by omega)

theorem strstr_none_spec (needle : List Nat) :
    ∀ (hay : List Nat), strstr hay needle = none → ∀ j, ¬ needle <+: hay.drop j := by
  intro hay
  induction hay with
  | nil =>
    intro h j hpre
    by_cases hp : needle.isPrefixOf [] = true
    · simp [strstr, hp] at h
    · exact hp (List.isPrefixOf_iff_prefix.mpr (by simpa using hpre))
  | cons c hay ih =>
    intro h j
    by_cases hp : needle.isPrefixOf (c :: hay) = true
    · rw [strstr_of_isPrefixOf _ _ hp] at h
      cases h
    · simp only [strstr, hp] at h
      have hs : strstr hay needle = none := by
        cases hs : strstr hay needle with
        | none => rfl
        | some k => simp [hs] at h
      cases j with
      | zero =>
        intro hpre
        exact hp (List.isPrefixOf_iff_prefix.mpr (by simpa using hpre))
      | succ j => simpa using ih hs j


theorem infix_iff_prefix_drop (needle hay : List Nat) :
    needle <:+: hay ↔ ∃ j, needle <+: hay.drop j := by
  constructor
  · rintro ⟨s, t, rfl⟩
    exact ⟨s.length, t, by simp⟩
  · rintro ⟨j, hj⟩
    exact hj.isInfix.trans (List.drop_suffix j hay).isInfix

theorem strstr_eq_none_iff (hay needle : List Nat) :
    strstr hay needle = none ↔ ¬ needle <:+: hay := by
  rw [infix_iff_prefix_drop]
  constructor
  · intro h ⟨j, hj⟩
    exact strstr_none_spec needle hay h j hj
  · intro h
    cases hs : strstr hay needle with
    | none => rfl
    | some i => exact absurd ⟨i, (strstr_some_spec needle hay i hs).2.1⟩ h

theorem strstrAt_zero (buf needle : List Nat) : strstrAt buf 0 needle = strstr buf needle := by
  simp [strstrAt]

theorem strstrAt_some_spec (buf needle : List Nat) (p q : Nat)
    (h : strstrAt buf p needle = some q) :
    p ≤ q ∧ needle <+: buf.drop q ∧ ∀ j, p ≤ j → j < q → ¬ needle <+: buf.drop j := by
  unfold strstrAt at h
  cases hs : strstr (buf.drop p) needle with
  | none => simp [hs] at h
  | some i =>
    simp [hs] at h
    subst h
    obtain ⟨-, h2, h3⟩ := strstr_some_spec needle _ i hs
    refine ⟨by omega, ?_, ?_⟩
    · simpa [List.drop_drop, Nat.add_comm] using h2
    · intro j hpj hji
      have := h3 (j - p) (by omega)
      simpa [List.drop_drop, Nat.add_sub_cancel' hpj, Nat.sub_add_cancel hpj] using this

theorem strstrAt_idem (buf needle : List Nat) (p q : Nat)
    (h : strstrAt buf p needle = some q) : strstrAt buf q needle = some q := by
  have hq := (strstrAt_some_spec buf needle p q h).2.1
  unfold strstrAt
  rw [strstr_of_isPrefixOf _ _ (List.isPrefixOf_iff_prefix.mpr hq)]
  simp

theorem rebuildLoop_stuck (text sbuf needle needleBuf : List Nat)
    (replacement : Option (List Nat)) :
    ∀ (fuel : Nat) (s : RebuildState) (q : Nat), strstrAt sbuf s.p needleBuf = some q →
      rebuildLoop text sbuf needle needleBuf replacement fuel s = none := by
  intro fuel
  induction fuel with
  | zero =>
    intro s q h
    simp [rebuildLoop, h]
  | succ fuel ih =>
    intro s q h
    simp only [rebuildLoop, h]
    exact ih _ q (by simpa [rebuildBody] using strstrAt_idem sbuf needleBuf s.p q h)

theorem countLoop_ge (searchBuf needleBuf : List Nat) (needleLen : Nat) :
    ∀ (fuel p count c : Nat), countLoop searchBuf needleBuf needleLen fuel p count = some c →
      count ≤ c ∧ (strstrAt searchBuf p needleBuf ≠ none → count < c) := by
  intro fuel
  induction fuel with
  | zero =>
    intro p count c h
    cases hs : strstrAt searchBuf p needleBuf with
    | none =>
      simp [countLoop, hs] at h
      subst h; simp
    | some q => simp [countLoop, hs] at h
  | succ fuel ih =>
    intro p count c h
    cases hs : strstrAt searchBuf p needleBuf with
    | none =>
      simp [countLoop, hs] at h
      subst h; simp
    | some q =>
      simp only [countLoop, hs] at h
      have := (ih _ _ _ h).1
      exact ⟨by omega, fun _ => by omega⟩

theorem countLoop_none_start (searchBuf needleBuf : List Nat) (needleLen fuel p count : Nat)
    (h : strstrAt searchBuf p needleBuf = none) :
    countLoop searchBuf needleBuf needleLen fuel p count = some count := by
  cases fuel <;> simp [countLoop, h]

theorem countLoop_terminates (searchBuf needleBuf : List Nat) (needleLen : Nat)
    (hn : needleBuf ≠ []) (hl : 0 < needleLen) :
    ∀ (fuel p count : Nat), searchBuf.length ≤ p + fuel →
      ∃ c, countLoop searchBuf needleBuf needleLen fuel p count = some c := by
  intro fuel
  induction fuel with
  | zero =>
    intro p count hlen
    have hd : searchBuf.drop p = [] := List.drop_eq_nil_of_le (by omega)
    have : strstrAt searchBuf p needleBuf = none := by
      cases needleBuf with
      | nil => exact absurd rfl hn
      | cons a t => simp [strstrAt, hd, strstr, List.isPrefixOf]
    exact ⟨count, countLoop_none_start _ _ _ _ _ _ this⟩
  | succ fuel ih =>
    intro p count hlen
    cases hs : strstrAt searchBuf p needleBuf with
    | none => exact ⟨count, countLoop_none_start _ _ _ _ _ _ hs⟩
    | some q =>
      simp only [countLoop, hs]
      have := (strstrAt_some_spec _ _ _ _ hs).1
      exact ih _ _ (by omega)


/-! ## Replace all -/

theorem caseRule_eq_nil (matchCase : Bool) (s : List Nat) :
    caseRule matchCase s = [] ↔ s = [] := by
  cases matchCase <;> simp [caseRule, lowerInPlace]

theorem caseRule_length (matchCase : Bool) (s : List Nat) :
    (caseRule matchCase s).length = s.length := by
  cases matchCase <;> simp [caseRule, lowerInPlace]

theorem ReplaceAllOccurrences_stuck (needle : List Nat) (replacement : Option (List Nat))
    (matchCase : Bool) (st : AppState) (hne : needle ≠ [])
    (hocc : strstr (caseRule matchCase st.text) (caseRule matchCase needle) ≠ none) :
    ∀ fuel, ReplaceAllOccurrences fuel needle replacement matchCase st = none := by
  intro fuel
  obtain ⟨q, hq⟩ := Option.ne_none_iff_exists'.mp hocc
  rw [← strstrAt_zero] at hq
  unfold ReplaceAllOccurrences
  simp only [hne, if_false, GetEditText]
  change (match countLoop (caseRule matchCase st.text) (caseRule matchCase needle)
      needle.length fuel 0 0 with
    | none => none
    | some count => _) = none
  cases hc : countLoop (caseRule matchCase st.text) (caseRule matchCase needle)
      needle.length fuel 0 0 with
  | none => rfl
  | some count =>
    have hpos := (countLoop_ge _ _ _ _ _ _ _ hc).2 (by simp [hq])
    have hcount : count ≠ 0 := by omega
    simp only [hcount, if_false]
    change (match rebuildLoop st.text (caseRule matchCase st.text) needle
        (caseRule matchCase needle) replacement fuel
        { p := 0, searchBuf := 0, orig := 0, result := [] } with
      | none => none
      | some s => _) = none
    rw [rebuildLoop_stuck _ _ _ _ _ fuel _ q hq]

theorem ReplaceAllOccurrences_absent (fuel : Nat) (needle : List Nat)
    (replacement : Option (List Nat)) (matchCase : Bool) (st : AppState)
    (h : strstr (caseRule matchCase st.text) (caseRule matchCase needle) = none) :
    ReplaceAllOccurrences fuel needle replacement matchCase st = some (0, st) := by
  rw [← strstrAt_zero] at h
  unfold ReplaceAllOccurrences
  by_cases hne : needle = []
  · simp [hne]
  · simp only [hne, if_false, GetEditText]
    change (match countLoop (caseRule matchCase st.text) (caseRule matchCase needle)
        needle.length fuel 0 0 with
      | none => none
      | some count => _) = some (0, st)
    rw [countLoop_none_start _ _ _ _ _ _ h]
    simp


/-! ## History: stacks, edits, undo and redo -/

theorem limitUndoStack_eq (l : List UndoRedoEntry) :
    limitUndoStack l = keepLast (MAX_UNDO_STACK - 1) l := by
  induction l with
  | nil => simp [limitUndoStack, keepLast]
  | cons e rest ih =>
    unfold limitUndoStack
    by_cases h : (e :: rest).length ≥ MAX_UNDO_STACK
    · rw [if_pos h, ih]
      simp only [MAX_UNDO_STACK, List.length_cons] at h ⊢
      unfold keepLast
      have : (rest.length + 1) - (100 - 1) = (rest.length - (100 - 1)) + 1 := by omega
      simp only [List.length_cons]
      rw [this, List.drop_succ_cons]
    · rw [if_neg h]
      simp only [MAX_UNDO_STACK, List.length_cons] at h ⊢
      unfold keepLast
      have : (e :: rest).length - (100 - 1) = 0 := by simp; omega
      rw [this, List.drop_zero]

theorem keepLast_length {α : Type} (n : Nat) (l : List α) :
    (keepLast n l).length = min l.length n := by
  simp [keepLast]; omega

theorem keepLast_concat {α : Type} (n : Nat) (l : List α) (a : α) :
    keepLast n l ++ [a] = keepLast (n + 1) (l ++ [a]) := by
  unfold keepLast
  have h : (l ++ [a]).length - (n + 1) = l.length - n := by simp
  rw [h, List.drop_append_of_le_length (by omega)]

theorem PushUndoStack_undoStack (st : AppState) (h : st.isUndoRedoInProgress = false) :
    (PushUndoStack st).undoStack =
      keepLast MAX_UNDO_STACK (st.undoStack ++ [CreateUndoEntry st]) := by
  have := keepLast_concat 99 st.undoStack (CreateUndoEntry st)
  simpa [PushUndoStack, h, limitUndoStack_eq, MAX_UNDO_STACK, CreateUndoEntry, GetEditText]
    using this

theorem on_text_changed_guarded (st : AppState) (h : st.isUndoRedoInProgress = true) :
    on_text_changed st = { st with modified := true } := by
  simp [on_text_changed, h]

theorem on_text_changed_organic (st : AppState) (h : st.isUndoRedoInProgress = false) :
    on_text_changed st =
      { st with modified := true, redoStack := [],
                undoStack := keepLast MAX_UNDO_STACK (st.undoStack ++ [CreateUndoEntry st]) } := by
  have := keepLast_concat 99 st.undoStack (CreateUndoEntry st)
  simp only [on_text_changed, h, ClearRedoStack, PushUndoStack, limitUndoStack_eq,
    MAX_UNDO_STACK, CreateUndoEntry, GetEditText] at this ⊢
  simp [this]

theorem set_text_guarded (st : AppState) (new : List Nat)
    (h : st.isUndoRedoInProgress = true) :
    gtk_text_buffer_set_text st new =
      { st with text := new,
                cursor := if new = [] then (if st.text = [] then st.cursor else 0)
                          else charCount new,
                modified := if st.text = [] ∧ new = [] then st.modified else true } := by
  unfold gtk_text_buffer_set_text
  by_cases h1 : st.text = [] <;> by_cases h2 : new = [] <;>
    simp [h1, h2, on_text_changed, h]
  · cases st; simp_all
  

theorem DoUndo_eq (st : AppState) (us : List UndoRedoEntry) (e : UndoRedoEntry)
    (h : st.undoStack = us ++ [e]) :
    DoUndo st =
      { st with text := e.text, cursor := min e.cursorPos (charCount e.text),
                modified := if st.text = [] ∧ e.text = [] then st.modified else true,
                undoStack := us,
                redoStack := st.redoStack ++ [{ text := st.text, cursorPos := st.cursor }],
                isUndoRedoInProgress := false } := by
  unfold DoUndo
  simp [h, set_text_guarded, gtk_text_buffer_get_iter_at_offset,
    gtk_text_buffer_place_cursor, CreateUndoEntry, GetEditText]

theorem DoRedo_eq (st : AppState) (rs : List UndoRedoEntry) (e : UndoRedoEntry)
    (h : st.redoStack = rs ++ [e]) :
    DoRedo st =
      { st with text := e.text, cursor := min e.cursorPos (charCount e.text),
                modified := if st.text = [] ∧ e.text = [] then st.modified else true,
                redoStack := rs,
                undoStack := st.undoStack ++ [{ text := st.text, cursorPos := st.cursor }],
                isUndoRedoInProgress := false } := by
  unfold DoRedo
  simp [h, set_text_guarded, gtk_text_buffer_get_iter_at_offset,
    gtk_text_buffer_place_cursor, CreateUndoEntry, GetEditText]

theorem DoUndo_nil (st : AppState) (h : st.undoStack = []) : DoUndo st = st := by
  simp [DoUndo, h]

theorem DoRedo_nil (st : AppState) (h : st.redoStack = []) : DoRedo st = st := by
  simp [DoRedo, h]

theorem exists_concat_of_ne_nil {α : Type} (l : List α) (h : l ≠ []) :
    ∃ us e, l = us ++ [e] :=
  ⟨l.dropLast, l.getLast h, (List.dropLast_append_getLast h).symm⟩


theorem keepLast_of_length_le {α : Type} (n : Nat) (l : List α) (h : l.length ≤ n) :
    keepLast n l = l := by
  unfold keepLast
  rw [Nat.sub_eq_zero_of_le h, List.drop_zero]

theorem keepLast_keepLast_append {α : Type} (n : Nat) (l m : List α) :
    keepLast n (keepLast n l ++ m) = keepLast n (l ++ m) := by
  by_cases h : l.length ≤ n
  · rw [keepLast_of_length_le n l h]
  · unfold keepLast
    simp only [List.length_append, List.length_drop]
    have h1 : l.length - (l.length - n) + m.length - n = m.length := by omega
    have h2 : l.length + m.length - n = (l.length - n) + m.length := by omega
    have h3 : l.length - n ≤ l.length := by omega
    rw [h1, h2, ← List.drop_drop, List.drop_append_of_le_length h3]

theorem mem_keepLast_concat {α : Type} (n : Nat) (l : List α) (a : α) :
    a ∈ keepLast (n + 1) (l ++ [a]) := by
  rw [← keepLast_concat]; simp

theorem organicEdit_eq (text : List Nat) (cursor : Nat) (st : AppState)
    (h : st.isUndoRedoInProgress = false) :
    organicEdit text cursor st =
      { st with text := text, cursor := cursor, modified := true, redoStack := [],
                undoStack := keepLast MAX_UNDO_STACK
                  (st.undoStack ++ [{ text := text, cursorPos := cursor }]) } := by
  unfold organicEdit
  rw [on_text_changed_organic _ (by simpa using h)]
  simp [CreateUndoEntry, GetEditText]

theorem runEdits_concat (es : List (List Nat × Nat)) (e : List Nat × Nat) (st : AppState) :
    runEdits (es ++ [e]) st = organicEdit e.1 e.2 (runEdits es st) := by
  simp [runEdits, List.foldl_append]

theorem runEdits_guard (edits : List (List Nat × Nat)) :
    ∀ st : AppState, st.isUndoRedoInProgress = false →
      (runEdits edits st).isUndoRedoInProgress = false := by
  induction edits with
  | nil => intro st h; simpa [runEdits] using h
  | cons e es ih =>
    intro st h
    have : runEdits (e :: es) st = runEdits es (organicEdit e.1 e.2 st) := by simp [runEdits]
    rw [this]
    exact ih _ (by rw [organicEdit_eq _ _ _ h]; exact h)

theorem runEdits_undoStack (edits : List (List Nat × Nat)) :
    ∀ st : AppState, st.isUndoRedoInProgress = false →
      st.undoStack.length ≤ MAX_UNDO_STACK →
      (runEdits edits st).undoStack =
        keepLast MAX_UNDO_STACK (st.undoStack ++ edits.map snapshotOf) := by
  induction edits with
  | nil =>
    intro st _ hl
    simp [runEdits, keepLast_of_length_le _ _ hl]
  | cons e es ih =>
    intro st h hl
    have hrun : runEdits (e :: es) st = runEdits es (organicEdit e.1 e.2 st) := by
      simp [runEdits]
    have hst := organicEdit_eq e.1 e.2 st h
    rw [hrun, ih _ (by rw [hst]; exact h) (by rw [hst]; simp [keepLast_length]), hst]
    simp only []
    rw [keepLast_keepLast_append]
    simp [snapshotOf]

theorem DoUndo_wf (st : AppState) (h : WellFormed st) : WellFormed (DoUndo st) := by
  by_cases hu : st.undoStack = []
  · rw [DoUndo_nil st hu]; exact h
  · obtain ⟨us, e, hue⟩ := exists_concat_of_ne_nil _ hu
    rw [DoUndo_eq st us e hue]
    obtain ⟨h1, h2, h3⟩ := h
    refine ⟨by simp, ?_, ?_⟩
    · intro x hx
      exact h2 x (by rw [hue]; simp [hx])
    · intro x hx
      simp only [List.mem_append, List.mem_singleton] at hx
      rcases hx with hx | hx
      · exact h3 x hx
      · subst hx; exact h1

theorem DoRedo_wf (st : AppState) (h : WellFormed st) : WellFormed (DoRedo st) := by
  by_cases hu : st.redoStack = []
  · rw [DoRedo_nil st hu]; exact h
  · obtain ⟨rs, e, hre⟩ := exists_concat_of_ne_nil _ hu
    rw [DoRedo_eq st rs e hre]
    obtain ⟨h1, h2, h3⟩ := h
    refine ⟨by simp, ?_, ?_⟩
    · intro x hx
      simp only [List.mem_append, List.mem_singleton] at hx
      rcases hx with hx | hx
      · exact h2 x hx
      · subst hx; exact h1
    · intro x hx
      exact h3 x (by rw [hre]; simp [hx])

theorem organicEdit_wf (text : List Nat) (cursor : Nat) (st : AppState)
    (hg : st.isUndoRedoInProgress = false) (hc : cursor ≤ charCount text)
    (h : WellFormed st) : WellFormed (organicEdit text cursor st) := by
  rw [organicEdit_eq _ _ _ hg]
  obtain ⟨-, h2, -⟩ := h
  refine ⟨hc, ?_, by simp⟩
  intro x hx
  have hx' := (List.drop_suffix _ _).subset hx
  simp only [List.mem_append, List.mem_singleton] at hx'
  rcases hx' with hx' | hx'
  · exact h2 x hx'
  · subst hx'; exact hc

theorem undo_redo_restore : ∀ (k : Nat) (st : AppState), WellFormed st →
    k ≤ st.undoStack.length →
    (DoRedo^[k] (DoUndo^[k] st)).text = st.text ∧
    (DoRedo^[k] (DoUndo^[k] st)).cursor = st.cursor ∧
    (DoRedo^[k] (DoUndo^[k] st)).undoStack = st.undoStack ∧
    (DoRedo^[k] (DoUndo^[k] st)).redoStack = st.redoStack := by
  intro k
  induction k with
  | zero => intro st _ _; simp
  | succ k ih =>
    intro st hwf hk
    have hu : st.undoStack ≠ [] := by
      intro h; rw [h] at hk; simp at hk
    obtain ⟨us, e, hue⟩ := exists_concat_of_ne_nil _ hu
    have hst1 := DoUndo_eq st us e hue
    have hlen : k ≤ (DoUndo st).undoStack.length := by
      rw [hst1]; rw [hue] at hk; simp at hk; simpa using hk
    obtain ⟨a1, a2, a3, a4⟩ := ih (DoUndo st) (DoUndo_wf st hwf) hlen
    rw [Function.iterate_succ_apply' DoRedo, Function.iterate_succ_apply DoUndo]
    rw [hst1] at a1 a2 a3 a4
    simp only [] at a1 a2 a3 a4
    rw [← hst1] at a1 a2 a3 a4
    rw [DoRedo_eq _ st.redoStack { text := st.text, cursorPos := st.cursor } a4]
    obtain ⟨h1, h2, -⟩ := hwf
    have he : UndoRedoEntry.Valid e := h2 e (by rw [hue]; simp)
    refine ⟨rfl, by simpa using h1, ?_, rfl⟩
    simp only [a1, a2, a3, hue]
    congr
    cases e
    simp only [UndoRedoEntry.Valid] at he
    simp [Nat.min_eq_left he]


theorem runEdits_wf (edits : List (List Nat × Nat)) :
    ∀ st : AppState, st.isUndoRedoInProgress = false → WellFormed st →
      (∀ e ∈ edits, e.2 ≤ charCount e.1) → WellFormed (runEdits edits st) := by
  induction edits with
  | nil => intro st _ h _; simpa [runEdits] using h
  | cons e es ih =>
    intro st hg hwf hv
    have hrun : runEdits (e :: es) st = runEdits es (organicEdit e.1 e.2 st) := by
      simp [runEdits]
    rw [hrun]
    refine ih _ ?_ (organicEdit_wf _ _ _ hg (hv e (by simp)) hwf) ?_
    · rw [organicEdit_eq _ _ _ hg]; exact hg
    · intro x hx; exact hv x (by simp [hx])

theorem on_text_changed_guard (st : AppState) :
    (on_text_changed st).isUndoRedoInProgress = st.isUndoRedoInProgress := by
  cases h : st.isUndoRedoInProgress
  · rw [on_text_changed_organic st h]; exact h
  · rw [on_text_changed_guarded st h]; exact h

theorem on_text_changed_text (st : AppState) :
    (on_text_changed st).text = st.text ∧ (on_text_changed st).cursor = st.cursor := by
  cases h : st.isUndoRedoInProgress
  · rw [on_text_changed_organic st h]; simp
  · rw [on_text_changed_guarded st h]; simp

theorem set_text_guard (st : AppState) (new : List Nat) :
    (gtk_text_buffer_set_text st new).isUndoRedoInProgress = st.isUndoRedoInProgress := by
  unfold gtk_text_buffer_set_text
  by_cases h1 : st.text = [] <;> by_cases h2 : new = [] <;>
    simp [h1, h2, on_text_changed_guard]

theorem set_text_text (st : AppState) (new : List Nat) :
    (gtk_text_buffer_set_text st new).text = new := by
  unfold gtk_text_buffer_set_text
  by_cases h1 : st.text = [] <;> by_cases h2 : new = [] <;>
    simp [h1, h2, (on_text_changed_text _).1]

theorem set_text_cursor (st : AppState) (new : List Nat)
    (h : st.cursor ≤ charCount st.text) :
    (gtk_text_buffer_set_text st new).cursor ≤ charCount new := by
  unfold gtk_text_buffer_set_text
  by_cases h1 : st.text = [] <;> by_cases h2 : new = [] <;>
    simp [h1, h2, (on_text_changed_text _).2]
  simpa [h1] using h

theorem DoFileSave_keeps (saveAs : Bool) (env : SaveAnswers) (st : AppState) :
    (DoFileSave saveAs env st).2.text = st.text ∧
    (DoFileSave saveAs env st).2.cursor = st.cursor ∧
    (DoFileSave saveAs env st).2.undoStack = st.undoStack ∧
    (DoFileSave saveAs env st).2.redoStack = st.redoStack ∧
    (DoFileSave saveAs env st).2.isUndoRedoInProgress = st.isUndoRedoInProgress := by
  unfold DoFileSave
  cases saveAs <;> cases env.writeOk <;> cases env.chosen <;>
    by_cases hp : st.currentPath = [] <;> simp [hp]

theorem PromptSaveChanges_keeps (env : SaveAnswers) (st : AppState) :
    (PromptSaveChanges env st).2.text = st.text ∧
    (PromptSaveChanges env st).2.cursor = st.cursor ∧
    (PromptSaveChanges env st).2.undoStack = st.undoStack ∧
    (PromptSaveChanges env st).2.redoStack = st.redoStack ∧
    (PromptSaveChanges env st).2.isUndoRedoInProgress = st.isUndoRedoInProgress := by
  unfold PromptSaveChanges DoFileSave
  cases st.modified <;> cases env.response <;> cases env.writeOk <;> cases env.chosen <;>
    by_cases hp : st.currentPath = [] <;> simp [hp]

theorem DoFileNew_declined (env : SaveAnswers) (st : AppState)
    (h : (PromptSaveChanges env st).1 = false) :
    DoFileNew env st = (PromptSaveChanges env st).2 := by
  simp [DoFileNew, h]

theorem DoFileNew_confirmed (env : SaveAnswers) (st : AppState)
    (h : (PromptSaveChanges env st).1 = true) :
    DoFileNew env st =
      { gtk_text_buffer_set_text (PromptSaveChanges env st).2 [] with
        currentPath := [], encoding := TextEncoding.ENC_UTF8, modified := false,
        undoStack := [], redoStack := [] } := by
  simp [DoFileNew, h, ClearRedoStack]

theorem Reachable_inv (st : AppState) (h : Reachable st) :
    st.isUndoRedoInProgress = false ∧
    st.undoStack.length + st.redoStack.length ≤ MAX_UNDO_STACK ∧
    WellFormed st := by
  induction h with
  | init => simp [initialState, MAX_UNDO_STACK, WellFormed]
  | edit st text cursor _ hc ih =>
    obtain ⟨hg, -, hwf⟩ := ih
    refine ⟨?_, ?_, organicEdit_wf _ _ _ hg hc hwf⟩
    · rw [organicEdit_eq _ _ _ hg]; exact hg
    · rw [organicEdit_eq _ _ _ hg]; simp [keepLast_length]
  | undo st _ ih =>
    obtain ⟨hg, hl, hwf⟩ := ih
    refine ⟨?_, ?_, DoUndo_wf st hwf⟩
    · by_cases hu : st.undoStack = []
      · rw [DoUndo_nil st hu]; exact hg
      · obtain ⟨us, e, hue⟩ := exists_concat_of_ne_nil _ hu
        rw [DoUndo_eq st us e hue]
    · by_cases hu : st.undoStack = []
      · rw [DoUndo_nil st hu]; exact hl
      · obtain ⟨us, e, hue⟩ := exists_concat_of_ne_nil _ hu
        rw [DoUndo_eq st us e hue]
        rw [hue] at hl
        simp at hl ⊢
        omega
  | redo st _ ih =>
    obtain ⟨hg, hl, hwf⟩ := ih
    refine ⟨?_, ?_, DoRedo_wf st hwf⟩
    · by_cases hu : st.redoStack = []
      · rw [DoRedo_nil st hu]; exact hg
      · obtain ⟨rs, e, hre⟩ := exists_concat_of_ne_nil _ hu
        rw [DoRedo_eq st rs e hre]
    · by_cases hu : st.redoStack = []
      · rw [DoRedo_nil st hu]; exact hl
      · obtain ⟨rs, e, hre⟩ := exists_concat_of_ne_nil _ hu
        rw [DoRedo_eq st rs e hre]
        rw [hre] at hl
        simp at hl ⊢
        omega
  | fileNew st env _ ih =>
    obtain ⟨hg, hl, hwf⟩ := ih
    obtain ⟨k1, k2, k3, k4, k5⟩ := PromptSaveChanges_keeps env st
    cases hr : (PromptSaveChanges env st).1
    · rw [DoFileNew_declined env st hr]
      refine ⟨by rw [k5]; exact hg, by rw [k3, k4]; exact hl, ?_⟩
      simp only [WellFormed, k1, k2, k3, k4]
      exact hwf
    · rw [DoFileNew_confirmed env st hr]
      refine ⟨by simp only [set_text_guard, k5]; exact hg, by simp, ?_⟩
      refine ⟨?_, by simp, by simp⟩
      simp only [set_text_text]
      exact set_text_cursor _ _ (by rw [k1, k2]; exact hwf.1)
  | save st saveAs env _ ih =>
    obtain ⟨hg, hl, hwf⟩ := ih
    obtain ⟨k1, k2, k3, k4, k5⟩ := DoFileSave_keeps saveAs env st
    refine ⟨by rw [k5]; exact hg, by rw [k3, k4]; exact hl, ?_⟩
    simp only [WellFormed, k1, k2, k3, k4]
    exact hwf
  | moveCursor st iter _ hc ih =>
    obtain ⟨hg, hl, hwf⟩ := ih
    exact ⟨hg, hl, hc, hwf.2⟩
  | load st path loaded _ ih =>
    obtain ⟨hg, hl, hwf⟩ := ih
    unfold LoadDocumentFromPath
    cases loaded with
    | none => exact ⟨hg, hl, hwf⟩
    | some r =>
      obtain ⟨text, enc⟩ := r
      simp only [ClearRedoStack]
      refine ⟨by rw [set_text_guard]; exact hg, by simp, ?_⟩
      refine ⟨?_, by simp, by simp⟩
      simp only [set_text_text]
      exact set_text_cursor _ _ hwf.1


/-! ## Search -/

theorem strstrAt_eq_none_iff (buf needle : List Nat) (p : Nat) :
    strstrAt buf p needle = none ↔ ∀ j, p ≤ j → ¬ needle <+: buf.drop j := by
  unfold strstrAt
  constructor
  · intro h j hj
    have h' : strstr (buf.drop p) needle = none := by
      cases hs : strstr (buf.drop p) needle with
      | none => rfl
      | some i => simp [hs] at h
    have := strstr_none_spec needle _ h' (j - p)
    simpa [List.drop_drop, Nat.add_sub_cancel' hj, Nat.sub_add_cancel hj] using this
  · intro h
    cases hs : strstr (buf.drop p) needle with
    | none => rfl
    | some i =>
      have := (strstr_some_spec needle _ i hs).2.1
      rw [List.drop_drop] at this
      exact absurd this (h _ (by omega))

theorem strstrAt_eq_some_iff (buf needle : List Nat) (p i : Nat) :
    strstrAt buf p needle = some i ↔
      p ≤ i ∧ needle <+: buf.drop i ∧ ∀ j, p ≤ j → j < i → ¬ needle <+: buf.drop j := by
  constructor
  · exact strstrAt_some_spec buf needle p i
  · rintro ⟨h1, h2, h3⟩
    cases hs : strstrAt buf p needle with
    | none => exact absurd h2 ((strstrAt_eq_none_iff buf needle p).mp hs i h1)
    | some q =>
      obtain ⟨q1, q2, q3⟩ := strstrAt_some_spec buf needle p q hs
      rcases Nat.lt_trichotomy q i with hlt | heq | hgt
      · exact absurd q2 (h3 q q1 hlt)
      · rw [heq]
      · exact absurd h2 (q3 i h1 hgt)

theorem charCount_ascii (t : List Nat) (h : IsAscii t) : charCount t = t.length := by
  unfold charCount
  rw [List.filter_eq_self.mpr]
  intro b hb
  have := h b hb
  have h2 : b / 64 ≠ 2 := by omega
  simpa using h2

theorem g_ascii_tolower_div (b : Nat) : g_ascii_tolower b / 64 = 2 ↔ b / 64 = 2 := by
  unfold g_ascii_tolower
  split <;> omega

theorem charCount_lowerInPlace (t : List Nat) : charCount (lowerInPlace t) = charCount t := by
  unfold charCount lowerInPlace
  induction t with
  | nil => rfl
  | cons b t ih =>
    simp only [List.map_cons, List.filter_cons]
    by_cases hb : b / 64 = 2
    · have := (g_ascii_tolower_div b).mpr hb
      simp [hb, this, ih]
    · have : ¬ g_ascii_tolower b / 64 = 2 := fun h => hb ((g_ascii_tolower_div b).mp h)
      simp [hb, this, ih]

theorem prefix_drop_length_le (needle hay : List Nat) (i : Nat) (hne : needle ≠ [])
    (h : needle <+: hay.drop i) : i + needle.length ≤ hay.length := by
  have h1 := h.length_le
  rw [List.length_drop] at h1
  have h2 : 0 < needle.length := List.length_pos.mpr hne
  omega

theorem FindInEdit_eq (needle : List Nat) (matchCase searchDown : Bool) (st : AppState)
    (hne : needle ≠ []) :
    FindInEdit needle matchCase searchDown st =
      (match (match strstrAt (caseRule matchCase st.text) (if !searchDown then 0 else st.cursor)
                (caseRule matchCase needle) with
              | some q => some q
              | none => if searchDown then
                  strstrAt (caseRule matchCase st.text) 0 (caseRule matchCase needle)
                else none) with
       | some pos => some (min pos (charCount st.text),
                           min (pos + needle.length) (charCount st.text))
       | none => none) := by
  simp [FindInEdit, hne, caseRule, GetEditText, gtk_text_buffer_get_iter_at_offset]

theorem FindInEdit_forward_ascii (needle : List Nat) (matchCase : Bool) (st : AppState)
    (hne : needle ≠ []) (ha : IsAscii st.text) :
    (∀ i, st.cursor ≤ i → caseRule matchCase needle <+: (caseRule matchCase st.text).drop i →
      (∀ j, st.cursor ≤ j → j < i →
        ¬ caseRule matchCase needle <+: (caseRule matchCase st.text).drop j) →
      FindInEdit needle matchCase true st = some (i, i + needle.length)) ∧
    ((∀ j, st.cursor ≤ j →
        ¬ caseRule matchCase needle <+: (caseRule matchCase st.text).drop j) →
      ∀ i, caseRule matchCase needle <+: (caseRule matchCase st.text).drop i →
      (∀ j, j < i → ¬ caseRule matchCase needle <+: (caseRule matchCase st.text).drop j) →
      i < st.cursor ∧ FindInEdit needle matchCase true st = some (i, i + needle.length)) ∧
    (FindInEdit needle matchCase true st = none ↔
      ¬ caseRule matchCase needle <:+: caseRule matchCase st.text) := by
  have hne' : caseRule matchCase needle ≠ [] := fun h => hne ((caseRule_eq_nil _ _).mp h)
  have hclamp : ∀ i, caseRule matchCase needle <+: (caseRule matchCase st.text).drop i →
      min i (charCount st.text) = i ∧
      min (i + needle.length) (charCount st.text) = i + needle.length := by
    intro i hi
    have := prefix_drop_length_le _ _ i hne' hi
    rw [caseRule_length, caseRule_length] at this
    rw [charCount_ascii _ ha]
    omega
  refine ⟨?_, ?_, ?_⟩
  · intro i h1 h2 h3
    rw [FindInEdit_eq _ _ _ _ hne]
    have : strstrAt (caseRule matchCase st.text) st.cursor (caseRule matchCase needle)
        = some i := (strstrAt_eq_some_iff _ _ _ _).mpr ⟨h1, h2, h3⟩
    simp only [Bool.not_true, Bool.false_eq_true, if_false, this]
    rw [(hclamp i h2).1, (hclamp i h2).2]
  · intro hnone i h2 h3
    have hlt : i < st.cursor := by
      by_contra hge
      exact hnone i (by omega) h2
    refine ⟨hlt, ?_⟩
    rw [FindInEdit_eq _ _ _ _ hne]
    have h0 : strstrAt (caseRule matchCase st.text) st.cursor (caseRule matchCase needle)
        = none := (strstrAt_eq_none_iff _ _ _).mpr hnone
    have h1 : strstrAt (caseRule matchCase st.text) 0 (caseRule matchCase needle)
        = some i := (strstrAt_eq_some_iff _ _ _ _).mpr ⟨by omega, h2, fun j _ hj => h3 j hj⟩
    simp only [Bool.not_true, Bool.false_eq_true, if_false, if_true, h0, h1]
    rw [(hclamp i h2).1, (hclamp i h2).2]
  · rw [FindInEdit_eq _ _ _ _ hne, ← strstr_eq_none_iff, ← strstrAt_zero]
    simp only [Bool.not_true, Bool.false_eq_true, if_false, if_true]
    cases h0 : strstrAt (caseRule matchCase st.text) st.cursor (caseRule matchCase needle) with
    | some q =>
      simp only []
      constructor
      · intro h; cases h
      · intro h
        have := (strstrAt_some_spec _ _ _ _ h0).2.1
        exact absurd this ((strstrAt_eq_none_iff _ _ 0).mp h q (by omega))
    | none =>
      cases h1 : strstrAt (caseRule matchCase st.text) 0 (caseRule matchCase needle) with
      | some q => simp
      | none => simp


theorem lowerInPlace_eq_nil (s : List Nat) : lowerInPlace s = [] ↔ s = [] := by
  simp [lowerInPlace]

theorem lowerInPlace_length (s : List Nat) : (lowerInPlace s).length = s.length := by
  simp [lowerInPlace]

theorem FindInEdit_insensitive_eq (needle : List Nat) (searchDown : Bool) (st : AppState) :
    FindInEdit needle false searchDown st =
      FindInEdit (lowerInPlace needle) true searchDown
        { st with text := lowerInPlace st.text } := by
  by_cases hne : needle = []
  · simp [FindInEdit, hne, lowerInPlace]
  · have hne' : lowerInPlace needle ≠ [] := fun h => hne ((lowerInPlace_eq_nil _).mp h)
    rw [FindInEdit_eq _ _ _ _ hne, FindInEdit_eq _ _ _ _ hne']
    simp [caseRule, charCount_lowerInPlace, lowerInPlace_length]

theorem FindInEdit_case_variation (needle needle' : List Nat) (searchDown : Bool)
    (st st' : AppState) (hn : lowerInPlace needle' = lowerInPlace needle)
    (ht : lowerInPlace st'.text = lowerInPlace st.text) (hc : st'.cursor = st.cursor) :
    FindInEdit needle' false searchDown st' = FindInEdit needle false searchDown st := by
  have hlen : needle'.length = needle.length := by
    rw [← lowerInPlace_length needle', hn, lowerInPlace_length]
  have hcc : charCount st'.text = charCount st.text := by
    rw [← charCount_lowerInPlace st'.text, ht, charCount_lowerInPlace]
  by_cases hne : needle = []
  · have hne' : needle' = [] := by
      apply List.eq_nil_of_length_eq_zero; rw [hlen, hne]; rfl
    simp [FindInEdit, hne, hne']
  · have hne' : needle' ≠ [] := by
      intro h; rw [h] at hlen; exact hne (List.eq_nil_of_length_eq_zero hlen.symm)
    rw [FindInEdit_eq _ _ _ _ hne, FindInEdit_eq _ _ _ _ hne']
    simp [caseRule, hn, ht, hc, hlen, hcc]

theorem g_ascii_tolower_exact (a b : Nat) (h1 : ¬ (65 ≤ a ∧ a ≤ 90))
    (h2 : ¬ (97 ≤ a ∧ a ≤ 122)) : g_ascii_tolower a = g_ascii_tolower b ↔ a = b := by
  unfold g_ascii_tolower
  split <;> split <;> omega


/-! ## Iterated undo -/

theorem DoUndo_iterate_text (j : Nat) : ∀ st : AppState,
    (DoUndo^[j] st).text = st.text ∨
      (DoUndo^[j] st).text ∈ st.undoStack.map UndoRedoEntry.text := by
  induction j with
  | zero => intro st; simp
  | succ j ih =>
    intro st
    rw [Function.iterate_succ_apply DoUndo]
    by_cases hu : st.undoStack = []
    · rw [DoUndo_nil st hu]; exact ih st
    · obtain ⟨us, e, hue⟩ := exists_concat_of_ne_nil _ hu
      have hst := DoUndo_eq st us e hue
      rcases ih (DoUndo st) with h | h
      · right
        rw [h, hst, hue]; simp
      · right
        rw [hst] at h
        simp only [] at h
        rw [← hst] at h
        rw [hue]
        simp only [List.map_append, List.mem_append]
        exact Or.inl h


theorem DoUndo_after_edit (st : AppState) (text : List Nat) (cursor : Nat)
    (hg : st.isUndoRedoInProgress = false) (hc : cursor ≤ charCount text) :
    (DoUndo (organicEdit text cursor st)).text = text ∧
    (DoUndo (organicEdit text cursor st)).cursor = cursor := by
  have hst := organicEdit_eq text cursor st hg
  have hstack : (organicEdit text cursor st).undoStack =
      keepLast 99 st.undoStack ++ [{ text := text, cursorPos := cursor }] := by
    rw [hst]; exact (keepLast_concat 99 _ _).symm
  rw [DoUndo_eq _ _ _ hstack]
  exact ⟨rfl, Nat.min_eq_left hc⟩


/-! ## The claims -/

/-- Claim C1, which the code does not meet.  On the two examples of the claim
(needle "ab" replaced by "X" in "ababab", needle "a" deleted from "banana")
`ReplaceAllOccurrences` never returns: whatever number of loop iterations is
granted, the rebuilding loop is still running, because it does not move `p`
past the match it has just found.  So the call neither reports the count 3 nor
sets the document to "XXX" or "bnn". -/
theorem ReplaceAllOccurrences_examples_never_return :
    (∀ fuel, ReplaceAllOccurrences fuel (ascii "ab") (some (ascii "X")) true
        (docState (ascii "ababab") 0) = none) ∧
    (∀ fuel, ReplaceAllOccurrences fuel (ascii "a") (some []) true
        (docState (ascii "banana") 0) = none) :=
  ⟨ReplaceAllOccurrences_stuck _ _ _ _ (by decide) (by decide),
   ReplaceAllOccurrences_stuck _ _ _ _ (by decide) (by decide)⟩

/-- Claim C2, which the code does not meet.  For every document in which the
non-empty needle occurs (under the selected case rule) the counting loop of
`ReplaceAllOccurrences` finishes within as many iterations as the text has
bytes and finds at least one occurrence, but the call as a whole never
returns: no amount of fuel is enough for the rebuilding loop. -/
theorem ReplaceAllOccurrences_never_returns_on_match (needle : List Nat)
    (replacement : Option (List Nat)) (matchCase : Bool) (st : AppState)
    (hne : needle ≠ [])
    (hocc : caseRule matchCase needle <:+: caseRule matchCase st.text) :
    (∃ c, 0 < c ∧ countLoop (caseRule matchCase st.text) (caseRule matchCase needle)
        needle.length st.text.length 0 0 = some c) ∧
    ∀ fuel, ReplaceAllOccurrences fuel needle replacement matchCase st = none := by
  have hs : strstr (caseRule matchCase st.text) (caseRule matchCase needle) ≠ none :=
    fun h => (strstr_eq_none_iff _ _).mp h hocc
  refine ⟨?_, ReplaceAllOccurrences_stuck needle replacement matchCase st hne hs⟩
  obtain ⟨c, hc⟩ := countLoop_terminates (caseRule matchCase st.text)
    (caseRule matchCase needle) needle.length
    (fun h => hne ((caseRule_eq_nil _ _).mp h))
    (List.length_pos.mpr hne) st.text.length 0 0 (by simp [caseRule_length])
  exact ⟨c, (countLoop_ge _ _ _ _ _ _ _ hc).2 (by rw [strstrAt_zero]; exact hs), hc⟩

/-- Claim C2 at a concrete input: the needle "A", matched without regard to
case and replaced by nothing, in the one-letter document "a". -/
theorem ReplaceAllOccurrences_never_returns_on_match_witness :
    ascii "A" ≠ [] ∧
    caseRule false (ascii "A") <:+: caseRule false (docState (ascii "a") 1).text ∧
    ((∃ c, 0 < c ∧ countLoop (caseRule false (docState (ascii "a") 1).text)
        (caseRule false (ascii "A")) (ascii "A").length
        (docState (ascii "a") 1).text.length 0 0 = some c) ∧
     ∀ fuel, ReplaceAllOccurrences fuel (ascii "A") none false (docState (ascii "a") 1)
        = none) :=
  ⟨by decide, by decide,
   ReplaceAllOccurrences_never_returns_on_match (ascii "A") none false
    (docState (ascii "a") 1) (by decide) (by decide)⟩

/-- Claim C3.  If the needle is empty or does not occur in the document text
under the selected case rule, `ReplaceAllOccurrences` returns 0, with any
amount of fuel, and leaves the whole state as it was: text, cursor, modified
flag and both history stacks. -/
theorem ReplaceAllOccurrences_noop (fuel : Nat) (needle : List Nat)
    (replacement : Option (List Nat)) (matchCase : Bool) (st : AppState)
    (h : needle = [] ∨ ¬ caseRule matchCase needle <:+: caseRule matchCase st.text) :
    ReplaceAllOccurrences fuel needle replacement matchCase st = some (0, st) := by
  rcases h with h | h
  · simp [ReplaceAllOccurrences, h]
  · exact ReplaceAllOccurrences_absent fuel needle replacement matchCase st
      ((strstr_eq_none_iff _ _).mpr h)

/-- Claim C3 at concrete inputs: the needle "xy" with replacement "Z", and the
empty needle, on the document "banana". -/
theorem ReplaceAllOccurrences_noop_witness :
    ¬ caseRule true (ascii "xy") <:+: caseRule true (docState (ascii "banana") 0).text ∧
    ReplaceAllOccurrences 0 (ascii "xy") (some (ascii "Z")) true (docState (ascii "banana") 0)
      = some (0, docState (ascii "banana") 0) ∧
    ReplaceAllOccurrences 0 [] (some (ascii "Z")) true (docState (ascii "banana") 0)
      = some (0, docState (ascii "banana") 0) :=
  ⟨by decide,
   ReplaceAllOccurrences_noop 0 (ascii "xy") (some (ascii "Z")) true
    (docState (ascii "banana") 0) (Or.inr (by decide)),
   ReplaceAllOccurrences_noop 0 [] (some (ascii "Z")) true
    (docState (ascii "banana") 0) (Or.inl rfl)⟩

/-- Claim C4.  In a well-formed state (as every reachable state is) whose undo
stack holds at least `k` entries, `k` calls of `DoUndo` followed by `k` calls
of `DoRedo` give back the text, the cursor offset, the undo stack and the redo
stack.  In particular, after `N ≤ 100` organic edits, `N - 1` undos followed by
`N - 1` redos give back the text and the cursor of the document that was
current before the first undo. -/
theorem undo_redo_roundtrip (st : AppState) (k : Nat) (edits : List (List Nat × Nat))
    (hwf : WellFormed st) :
    (k ≤ st.undoStack.length →
      (DoRedo^[k] (DoUndo^[k] st)).text = st.text ∧
      (DoRedo^[k] (DoUndo^[k] st)).cursor = st.cursor ∧
      (DoRedo^[k] (DoUndo^[k] st)).undoStack = st.undoStack ∧
      (DoRedo^[k] (DoUndo^[k] st)).redoStack = st.redoStack) ∧
    (st.isUndoRedoInProgress = false → st.undoStack.length ≤ MAX_UNDO_STACK →
      (∀ e ∈ edits, e.2 ≤ charCount e.1) → edits.length ≤ 100 →
      (DoRedo^[edits.length - 1] (DoUndo^[edits.length - 1] (runEdits edits st))).text
        = (runEdits edits st).text ∧
      (DoRedo^[edits.length - 1] (DoUndo^[edits.length - 1] (runEdits edits st))).cursor
        = (runEdits edits st).cursor) := by
  refine ⟨undo_redo_restore k st hwf, ?_⟩
  intro hg hl hv hn
  have hlen : edits.length - 1 ≤ (runEdits edits st).undoStack.length := by
    rw [runEdits_undoStack edits st hg hl, keepLast_length]
    simp [MAX_UNDO_STACK]
    omega
  obtain ⟨h1, h2, -, -⟩ :=
    undo_redo_restore (edits.length - 1) _ (runEdits_wf edits st hg hwf hv) hlen
  exact ⟨h1, h2⟩

/-- Claim C4 at concrete inputs: two undos and two redos after typing "a" and
"b", and one undo and one redo after two further edits. -/
theorem undo_redo_roundtrip_witness :
    WellFormed (runEdits [(ascii "a", 1), (ascii "ab", 2)] initialState) ∧
    (DoRedo^[2] (DoUndo^[2] (runEdits [(ascii "a", 1), (ascii "ab", 2)] initialState))).text
      = ascii "ab" ∧
    (DoRedo^[1] (DoUndo^[1] (runEdits [(ascii "b", 1), (ascii "", 0)]
      (runEdits [(ascii "a", 1), (ascii "ab", 2)] initialState)))).text = ascii "" := by
  have hwf : WellFormed (runEdits [(ascii "a", 1), (ascii "ab", 2)] initialState) := by
    decide
  have h := undo_redo_roundtrip (runEdits [(ascii "a", 1), (ascii "ab", 2)] initialState) 2
    [(ascii "b", 1), (ascii "", 0)] hwf
  refine ⟨hwf, ?_, ?_⟩
  · exact (h.1 (by decide)).1.trans (by decide)
  · exact (h.2 (by decide) (by decide) (by decide) (by decide)).1.trans (by decide)

/-- Claim C5.  In every state reachable from the state at start-up by organic
edits, `DoUndo`, `DoRedo`, `DoFileNew`, `LoadDocumentFromPath`, `DoFileSave`
and cursor moves, the undo stack holds at most 100 entries; indeed the two
stacks together hold at most 100, which is why the push of `DoRedo` needs no
eviction. -/
theorem undoStack_bounded (st : AppState) (h : Reachable st) :
    st.undoStack.length ≤ MAX_UNDO_STACK ∧
    st.undoStack.length + st.redoStack.length ≤ MAX_UNDO_STACK := by
  have := (Reachable_inv st h).2.1
  exact ⟨by omega, this⟩

/-- Claim C5 at a concrete reachable state: an edit, an undo and a redo. -/
theorem undoStack_bounded_witness :
    Reachable (DoRedo (DoUndo (organicEdit (ascii "a") 1 initialState))) ∧
    (DoRedo (DoUndo (organicEdit (ascii "a") 1 initialState))).undoStack.length
      ≤ MAX_UNDO_STACK :=
  ⟨Reachable.redo _ (Reachable.undo _ (Reachable.edit _ _ _ Reachable.init (by decide))),
   (undoStack_bounded _
    (Reachable.redo _ (Reachable.undo _ (Reachable.edit _ _ _ Reachable.init (by decide))))).1⟩

/-- Claim C6, which the code does not meet.  The snapshot is taken by the
handler of `changed`, that is after the buffer has changed.  Typing "a" into
the empty document and undoing at once leaves the text "a" with the cursor at
1, not the empty text with the cursor at 0; typing "a", then "b", and undoing
once leaves "ab", not "a". -/
theorem undo_after_edit_keeps_edit :
    initialState.text = [] ∧ initialState.cursor = 0 ∧
    (DoUndo (organicEdit (ascii "a") 1 initialState)).text = ascii "a" ∧
    (DoUndo (organicEdit (ascii "a") 1 initialState)).cursor = 1 ∧
    (organicEdit (ascii "a") 1 initialState).text = ascii "a" ∧
    (DoUndo (organicEdit (ascii "ab") 2 (organicEdit (ascii "a") 1 initialState))).text
      = ascii "ab" := by
  decide

/-- Claim C7.  An organic edit (a change while no undo or redo is in progress)
leaves the redo stack empty, whatever it held.  Hence, from any state with a
non-empty undo stack, after `DoUndo` and an organic edit the call of `DoRedo`
changes nothing: the state, and so the document, is the one the edit
produced. -/
theorem edit_clears_redo (st : AppState) (text : List Nat) (cursor : Nat) :
    (st.isUndoRedoInProgress = false → (organicEdit text cursor st).redoStack = []) ∧
    (st.undoStack ≠ [] →
      (organicEdit text cursor (DoUndo st)).redoStack = [] ∧
      DoRedo (organicEdit text cursor (DoUndo st)) = organicEdit text cursor (DoUndo st) ∧
      (DoRedo (organicEdit text cursor (DoUndo st))).text = text ∧
      (DoRedo (organicEdit text cursor (DoUndo st))).cursor = cursor) := by
  have key : ∀ s : AppState, s.isUndoRedoInProgress = false →
      (organicEdit text cursor s).redoStack = [] := by
    intro s hs; rw [organicEdit_eq _ _ _ hs]
  refine ⟨key st, ?_⟩
  intro hu
  obtain ⟨us, e, hue⟩ := exists_concat_of_ne_nil _ hu
  have hg : (DoUndo st).isUndoRedoInProgress = false := by rw [DoUndo_eq st us e hue]
  have hr := key (DoUndo st) hg
  have hno := DoRedo_nil _ hr
  refine ⟨hr, hno, ?_, ?_⟩
  · rw [hno, organicEdit_eq _ _ _ hg]
  · rw [hno, organicEdit_eq _ _ _ hg]

/-- Claim C7 at concrete inputs: an edit made while the redo stack holds an
entry, and the sequence undo, edit, redo after typing "a". -/
theorem edit_clears_redo_witness :
    (DoUndo (organicEdit (ascii "a") 1 initialState)).isUndoRedoInProgress = false ∧
    (DoUndo (organicEdit (ascii "a") 1 initialState)).redoStack ≠ [] ∧
    (organicEdit (ascii "b") 1 (DoUndo (organicEdit (ascii "a") 1 initialState))).redoStack
      = [] ∧
    (organicEdit (ascii "a") 1 initialState).undoStack ≠ [] ∧
    (DoRedo (organicEdit (ascii "b") 1 (DoUndo (organicEdit (ascii "a") 1 initialState)))).text
      = ascii "b" :=
  ⟨by decide, by decide,
   (edit_clears_redo (DoUndo (organicEdit (ascii "a") 1 initialState)) (ascii "b") 1).1
     (by decide),
   by decide,
   ((edit_clears_redo (organicEdit (ascii "a") 1 initialState) (ascii "b") 1).2
     (by decide)).2.2.1⟩

/-- Claim C8.  Starting with an empty undo stack, after `N` organic edits the
undo stack is the list of the last `min N 100` snapshots taken, oldest first;
its length is `min N 100`; for `N = 101` it is the list of all snapshots but
the first; and whatever number of times `DoUndo` is then repeated, the text it
leaves in the buffer is the text of one of these last 100 snapshots. -/
theorem undoStack_after_edits (st : AppState) (edits : List (List Nat × Nat))
    (hg : st.isUndoRedoInProgress = false) (hu : st.undoStack = []) :
    (runEdits edits st).undoStack = keepLast MAX_UNDO_STACK (edits.map snapshotOf) ∧
    (runEdits edits st).undoStack.length = min edits.length MAX_UNDO_STACK ∧
    (edits.length = MAX_UNDO_STACK + 1 →
      (runEdits edits st).undoStack = (edits.map snapshotOf).tail) ∧
    (edits ≠ [] → ∀ j,
      (DoUndo^[j] (runEdits edits st)).text ∈
        (keepLast MAX_UNDO_STACK (edits.map snapshotOf)).map UndoRedoEntry.text) := by
  have hstack : (runEdits edits st).undoStack =
      keepLast MAX_UNDO_STACK (edits.map snapshotOf) := by
    rw [runEdits_undoStack edits st hg (by simp [hu]), hu, List.nil_append]
  refine ⟨hstack, ?_, ?_, ?_⟩
  · rw [hstack, keepLast_length, List.length_map]
  · intro hn
    rw [hstack]
    unfold keepLast
    rw [List.length_map, hn, Nat.add_sub_cancel_left, List.drop_one]
  · intro hne j
    obtain ⟨es, e, hes⟩ := exists_concat_of_ne_nil _ hne
    have hlast : (runEdits edits st).text ∈
        (keepLast MAX_UNDO_STACK (edits.map snapshotOf)).map UndoRedoEntry.text := by
      rw [hes, runEdits_concat, organicEdit_eq _ _ _ (runEdits_guard es st hg)]
      simp only [List.map_append, List.map_cons, List.map_nil, List.mem_map]
      exact ⟨snapshotOf e, mem_keepLast_concat 99 _ _, rfl⟩
    rcases DoUndo_iterate_text j (runEdits edits st) with h | h
    · rw [h]; exact hlast
    · rw [hstack] at h; exact h

/-- Claim C8 at a concrete input: the undo stack after typing "a" and "b". -/
theorem undoStack_after_edits_witness :
    initialState.isUndoRedoInProgress = false ∧ initialState.undoStack = [] ∧
    (runEdits [(ascii "a", 1), (ascii "ab", 2)] initialState).undoStack
      = [⟨ascii "a", 1⟩, ⟨ascii "ab", 2⟩] :=
  ⟨by decide, by decide,
   ((undoStack_after_edits initialState [(ascii "a", 1), (ascii "ab", 2)]
    (by decide) (by decide)).1).trans (by decide)⟩

/-- Claim C9, which the code does not meet on text with multi-byte characters.
The document is "é" (bytes C3 A9) followed by "ab", three characters, with the
cursor at 0; the needle "a" occurs after one character, at offsets 1 to 2.
`FindInEdit` finds it at byte offset 2 and hands that number to the buffer as a
character offset: the span it returns is 2 to 3, the letter "b". -/
theorem FindInEdit_forward_multibyte :
    (docState ([195, 169] ++ ascii "ab") 0).text = [195, 169] ++ ascii "a" ++ ascii "b" ∧
    charCount [195, 169] = 1 ∧
    charCount (docState ([195, 169] ++ ascii "ab") 0).text = 3 ∧
    FindInEdit (ascii "a") true true (docState ([195, 169] ++ ascii "ab") 0) = some (2, 3) := by
  decide

/-- Claim C10.  A case-insensitive `FindInEdit` gives the result of the
case-sensitive search of the lower-cased needle in the lower-cased text, for
every needle, text, cursor and direction; lower-casing keeps the length of the
needle and of the text; needles and texts that differ only in the case of
ASCII letters give the same result; and a byte that is not an ASCII letter is
equal after folding only to itself. -/
theorem FindInEdit_case_insensitive (needle : List Nat) (searchDown : Bool) (st : AppState) :
    FindInEdit needle false searchDown st =
      FindInEdit (lowerInPlace needle) true searchDown
        { st with text := lowerInPlace st.text } ∧
    (lowerInPlace needle).length = needle.length ∧
    (lowerInPlace st.text).length = st.text.length ∧
    (∀ (needle' : List Nat) (st' : AppState),
      lowerInPlace needle' = lowerInPlace needle →
      lowerInPlace st'.text = lowerInPlace st.text → st'.cursor = st.cursor →
      FindInEdit needle' false searchDown st' = FindInEdit needle false searchDown st) ∧
    (∀ a b : Nat, ¬ (65 ≤ a ∧ a ≤ 90) → ¬ (97 ≤ a ∧ a ≤ 122) →
      (g_ascii_tolower a = g_ascii_tolower b ↔ a = b)) :=
  ⟨FindInEdit_insensitive_eq needle searchDown st, lowerInPlace_length _,
   lowerInPlace_length _,
   fun needle' st' hn ht hc => FindInEdit_case_variation needle needle' searchDown st st' hn ht hc,
   g_ascii_tolower_exact⟩

/-- Claim C10 at concrete inputs: "FOO" and "fOO" are found where "foo" is, in
texts that differ from "a foo, a foo" only in case; and the byte 64 is not
identified with the byte 96. -/
theorem FindInEdit_case_insensitive_witness :
    FindInEdit (ascii "FOO") false true (docState (ascii "a Foo, a fOO") 3) = some (9, 12) ∧
    FindInEdit (ascii "fOO") false true (docState (ascii "A FOO, a foo") 3) = some (9, 12) ∧
    FindInEdit (ascii "foo") false true (docState (ascii "a foo, a foo") 3) = some (9, 12) ∧
    (g_ascii_tolower 64 = g_ascii_tolower 96 ↔ 64 = 96) := by
  have h := FindInEdit_case_insensitive (ascii "foo") true (docState (ascii "a foo, a foo") 3)
  have hfoo : FindInEdit (ascii "foo") false true (docState (ascii "a foo, a foo") 3)
      = some (9, 12) := by decide
  refine ⟨?_, ?_, hfoo, h.2.2.2.2 64 96 (by decide) (by decide)⟩
  · exact (h.2.2.2.1 (ascii "FOO") (docState (ascii "a Foo, a fOO") 3)
      (by decide) (by decide) (by decide)).trans hfoo
  · exact (h.2.2.2.1 (ascii "fOO") (docState (ascii "A FOO, a foo") 3)
      (by decide) (by decide) (by decide)).trans hfoo

/-! ## File encoding and repeated search: auxiliary facts -/

theorem starts_with_two (data : List Nat) (a b : Nat) :
    (data.length ≥ 2 ∧ byteAt data 0 = a ∧ byteAt data 1 = b) ↔ [a, b] <+: data := by
  match data with
  | [] => simp [byteAt]
  | [x] => simp [byteAt]
  | x :: y :: rest =>
    simp [byteAt, List.cons_prefix_cons]
    constructor
    · rintro ⟨h1, h2⟩; exact ⟨h1.symm, h2.symm⟩
    · rintro ⟨h1, h2⟩; exact ⟨h1.symm, h2.symm⟩

theorem DetectEncoding_take (data : List Nat) :
    DetectEncoding data = DetectEncoding (data.take 3) := by
  match data with
  | [] => rfl
  | [_] => rfl
  | [_, _] => rfl
  | x :: y :: z :: rest =>
    simp [DetectEncoding, byteAt]

theorem utf8Decode_ascii_cons (b : Nat) (rest : List Nat) (hb : b < 128) :
    utf8Decode (b :: rest) = (utf8Decode rest).map (List.cons b) := by
  rw [utf8Decode.eq_def]
  simp [hb]

theorem WriteUTF16LE_ascii_head (b : Nat) (rest : List Nat) (hb0 : 0 < b) (hb : b < 128)
    (hv : (utf8Decode rest).isSome = true) :
    WriteUTF16LE (b :: rest) = (true, [255, 254, b]) := by
  obtain ⟨cps, hcps⟩ := Option.isSome_iff_exists.mp hv
  have h1 : b % 256 = b := Nat.mod_eq_of_lt (by omega)
  have h2 : b / 256 = 0 := Nat.div_eq_of_lt (by omega)
  have h3 : (b != 0) = true := by simp; omega
  simp [WriteUTF16LE, g_convert_utf8_to_utf16le, utf8Decode_ascii_cons b rest hb, hcps,
    utf16EncodeChar, cstr, h1, h2, h3, List.takeWhile, show b < 65536 by omega]

theorem DecodeToUTF8_one_byte_body (b : Nat) :
    DecodeToUTF8 [255, 254, b] TextEncoding.ENC_UTF16LE = none := by
  simp [DecodeToUTF8, byteAt, g_convert_utf16_to_utf8, utf16Units]

theorem LoadTextFile_one_byte_body (b : Nat) :
    LoadTextFile (some [255, 254, b]) = none := by
  simp [LoadTextFile, DetectEncoding, byteAt, DecodeToUTF8_one_byte_body]



theorem FindInEdit_found_ascii (needle : List Nat) (matchCase searchDown : Bool)
    (st : AppState) (a b : Nat) (ha : IsAscii st.text)
    (h : FindInEdit needle matchCase searchDown st = some (a, b)) :
    needle ≠ [] ∧ b = a + needle.length ∧
    caseRule matchCase needle <+: (caseRule matchCase st.text).drop a := by
  have hne : needle ≠ [] := by
    intro hn; simp [FindInEdit, hn] at h
  have hne' : caseRule matchCase needle ≠ [] := fun h => hne ((caseRule_eq_nil _ _).mp h)
  have hclamp : ∀ i, caseRule matchCase needle <+: (caseRule matchCase st.text).drop i →
      min i (charCount st.text) = i ∧
      min (i + needle.length) (charCount st.text) = i + needle.length := by
    intro i hi
    have := prefix_drop_length_le _ _ i hne' hi
    rw [caseRule_length, caseRule_length] at this
    rw [charCount_ascii _ ha]
    omega
  have key : ∀ p q, strstrAt (caseRule matchCase st.text) p (caseRule matchCase needle) = some q →
      some (min q (charCount st.text), min (q + needle.length) (charCount st.text)) = some (a, b) →
      b = a + needle.length ∧
        caseRule matchCase needle <+: (caseRule matchCase st.text).drop a := by
    intro p q hq hr
    have hpre := (strstrAt_some_spec _ _ _ _ hq).2.1
    rw [(hclamp q hpre).1, (hclamp q hpre).2] at hr
    simp only [Option.some.injEq, Prod.mk.injEq] at hr
    obtain ⟨rfl, rfl⟩ := hr
    exact ⟨rfl, hpre⟩
  rw [FindInEdit_eq _ _ _ _ hne] at h
  refine ⟨hne, ?_⟩
  cases h0 : strstrAt (caseRule matchCase st.text) (if !searchDown then 0 else st.cursor)
      (caseRule matchCase needle) with
  | some q =>
    rw [h0] at h
    exact key _ q h0 h
  | none =>
    rw [h0] at h
    cases searchDown with
    | false => simp at h
    | true =>
      simp only [if_true] at h
      cases h1 : strstrAt (caseRule matchCase st.text) 0 (caseRule matchCase needle) with
      | some q =>
        rw [h1] at h
        exact key _ q h1 h
      | none => rw [h1] at h; simp at h

theorem FindInEdit_at_occurrence (needle : List Nat) (matchCase : Bool) (st : AppState)
    (hne : needle ≠ []) (ha : IsAscii st.text)
    (h : caseRule matchCase needle <+: (caseRule matchCase st.text).drop st.cursor) :
    FindInEdit needle matchCase true st = some (st.cursor, st.cursor + needle.length) :=
  (FindInEdit_forward_ascii needle matchCase st hne ha).1 st.cursor (Nat.le_refl _) h
    (fun j h1 h2 => absurd h1 (by omega))

theorem FindInEdit_backward_cursor (needle : List Nat) (matchCase : Bool) (st : AppState)
    (c : Nat) :
    FindInEdit needle matchCase false { st with cursor := c } =
      FindInEdit needle matchCase false st := by
  by_cases hne : needle = []
  · simp [FindInEdit, hne]
  · rw [FindInEdit_eq _ _ _ _ hne, FindInEdit_eq _ _ _ _ hne]
    simp

theorem FindInEdit_backward_ascii (needle : List Nat) (matchCase : Bool) (st : AppState)
    (hne : needle ≠ []) (ha : IsAscii st.text) :
    (∀ i, caseRule matchCase needle <+: (caseRule matchCase st.text).drop i →
      (∀ j, j < i → ¬ caseRule matchCase needle <+: (caseRule matchCase st.text).drop j) →
      FindInEdit needle matchCase false st = some (i, i + needle.length)) ∧
    (FindInEdit needle matchCase false st = none ↔
      ¬ caseRule matchCase needle <:+: caseRule matchCase st.text) := by
  have hne' : caseRule matchCase needle ≠ [] := fun h => hne ((caseRule_eq_nil _ _).mp h)
  constructor
  · intro i h2 h3
    have hlen := prefix_drop_length_le _ _ i hne' h2
    rw [caseRule_length, caseRule_length] at hlen
    have h1 : strstrAt (caseRule matchCase st.text) 0 (caseRule matchCase needle)
        = some i := (strstrAt_eq_some_iff _ _ _ _).mpr ⟨by omega, h2, fun j _ hj => h3 j hj⟩
    rw [FindInEdit_eq _ _ _ _ hne]
    simp only [Bool.not_false, if_true, h1]
    rw [charCount_ascii _ ha]
    simp only [Option.some.injEq, Prod.mk.injEq]
    omega
  · rw [FindInEdit_eq _ _ _ _ hne, ← strstr_eq_none_iff, ← strstrAt_zero]
    simp only [Bool.not_false, if_true]
    cases h0 : strstrAt (caseRule matchCase st.text) 0 (caseRule matchCase needle) with
    | some q => simp
    | none => simp

/-! ## The claims on file encoding, the guard and the search span -/

/-- Claim C11, which the code does not meet.  `WriteUTF16LE` takes the length
of the converted text with `strlen`, which stops at the first zero byte.  For
every text that starts with an ASCII character (and is well-formed after it)
the file written is the marker FF FE followed by that one byte; decoding it as
UTF-16LE fails, and so does `LoadTextFile` on that file. -/
theorem WriteUTF16LE_roundtrip_fails (b : Nat) (rest : List Nat) (hb0 : 0 < b)
    (hb : b < 128) (hv : (utf8Decode rest).isSome = true) :
    WriteUTF16LE (b :: rest) = (true, [255, 254, b]) ∧
    DecodeToUTF8 (WriteUTF16LE (b :: rest)).2 TextEncoding.ENC_UTF16LE = none ∧
    LoadTextFile (some (WriteUTF16LE (b :: rest)).2) = none := by
  have h := WriteUTF16LE_ascii_head b rest hb0 hb hv
  rw [h]
  exact ⟨rfl, DecodeToUTF8_one_byte_body b, LoadTextFile_one_byte_body b⟩

/-- Claim C11 at the text "A" of the claim: the file written is FF FE 41, which
does not decode, while the full encoding FF FE 41 00 would decode to "A". -/
theorem WriteUTF16LE_roundtrip_fails_witness :
    (utf8Decode []).isSome = true ∧
    WriteUTF16LE (ascii "A") = (true, [255, 254, 65]) ∧
    DecodeToUTF8 (WriteUTF16LE (ascii "A")).2 TextEncoding.ENC_UTF16LE = none ∧
    DecodeToUTF8 [255, 254, 65, 0] TextEncoding.ENC_UTF16LE = some (ascii "A") :=
  ⟨by decide,
   (WriteUTF16LE_roundtrip_fails 65 [] (by decide) (by decide) (by decide)).1,
   (WriteUTF16LE_roundtrip_fails 65 [] (by decide) (by decide) (by decide)).2.1,
   by decide⟩

/-- Claim C12.  `DetectEncoding` returns UTF-16LE for a buffer that starts with
FF FE, UTF-16BE for one that starts with FE FF, and UTF-8 for every other
buffer, with the marker EF BB BF or without; the result is that of the first 3
bytes; the empty buffer yields UTF-8, and `LoadTextFile` hands out the empty
text tagged UTF-8 for an empty file. -/
theorem DetectEncoding_spec (data : List Nat) :
    ([255, 254] <+: data → DetectEncoding data = TextEncoding.ENC_UTF16LE) ∧
    ([254, 255] <+: data → DetectEncoding data = TextEncoding.ENC_UTF16BE) ∧
    (¬ [255, 254] <+: data → ¬ [254, 255] <+: data →
      DetectEncoding data = TextEncoding.ENC_UTF8) ∧
    ([239, 187, 191] <+: data → DetectEncoding data = TextEncoding.ENC_UTF8) ∧
    DetectEncoding data = DetectEncoding (data.take 3) ∧
    DetectEncoding [] = TextEncoding.ENC_UTF8 ∧
    DecodeToUTF8 [] TextEncoding.ENC_UTF8 = some [] ∧
    LoadTextFile (some []) = some ([], TextEncoding.ENC_UTF8) := by
  have hle := starts_with_two data 255 254
  have hbe := starts_with_two data 254 255
  have hnone : ¬ [255, 254] <+: data → ¬ [254, 255] <+: data →
      DetectEncoding data = TextEncoding.ENC_UTF8 := by
    intro h1 h2
    unfold DetectEncoding
    rw [if_neg (fun h => h1 (hle.mp h)), if_neg (fun h => h2 (hbe.mp h))]
    simp
  refine ⟨?_, ?_, hnone, ?_, DetectEncoding_take data, by decide, by decide, by decide⟩
  · intro h
    unfold DetectEncoding
    rw [if_pos (hle.mpr h)]
  · intro h
    have h1 : ¬ [255, 254] <+: data := by
      intro h'
      obtain ⟨t, rfl⟩ := h
      simp [List.cons_prefix_cons] at h'
    unfold DetectEncoding
    rw [if_neg (fun h' => h1 (hle.mp h')), if_pos (hbe.mpr h)]
  · intro h
    apply hnone
    · intro h'
      obtain ⟨t, rfl⟩ := h
      simp [List.cons_prefix_cons] at h'
    · intro h'
      obtain ⟨t, rfl⟩ := h
      simp [List.cons_prefix_cons] at h'

/-- Claim C12 at concrete buffers, one for each marker and one without. -/
theorem DetectEncoding_spec_witness :
    DetectEncoding [255, 254, 65, 0] = TextEncoding.ENC_UTF16LE ∧
    DetectEncoding [254, 255, 0, 65] = TextEncoding.ENC_UTF16BE ∧
    DetectEncoding [239, 187, 191, 65] = TextEncoding.ENC_UTF8 ∧
    DetectEncoding [65, 66] = TextEncoding.ENC_UTF8 :=
  ⟨(DetectEncoding_spec [255, 254, 65, 0]).1 (by decide),
   (DetectEncoding_spec [254, 255, 0, 65]).2.1 (by decide),
   (DetectEncoding_spec [239, 187, 191, 65]).2.2.2.1 (by decide),
   (DetectEncoding_spec [65, 66]).2.2.1 (by decide) (by decide)⟩

/-- Claim C13, which the code does not meet.  `DecodeToUTF8` with `ENC_UTF8`
copies the bytes and never fails, whatever the buffer.  The single byte FF and
the pair C3 28 are not well-formed UTF-8, are detected as UTF-8, and are handed
out as text by `DecodeToUTF8` and by `LoadTextFile`. -/
theorem DecodeToUTF8_accepts_malformed :
    (∀ data : List Nat, (DecodeToUTF8 data TextEncoding.ENC_UTF8).isSome = true) ∧
    utf8Decode [255] = none ∧
    DetectEncoding [255] = TextEncoding.ENC_UTF8 ∧
    DecodeToUTF8 [255] TextEncoding.ENC_UTF8 = some [255] ∧
    LoadTextFile (some [255]) = some ([255], TextEncoding.ENC_UTF8) ∧
    utf8Decode [195, 40] = none ∧
    DetectEncoding [195, 40] = TextEncoding.ENC_UTF8 ∧
    DecodeToUTF8 [195, 40] TextEncoding.ENC_UTF8 = some [195, 40] ∧
    LoadTextFile (some [195, 40]) = some ([195, 40], TextEncoding.ENC_UTF8) := by
  refine ⟨?_, by decide, by decide, by decide, by decide, by decide, by decide, by decide,
    by decide⟩
  intro data
  simp [DecodeToUTF8]

/-- Claim C14.  When `LoadTextFile` fails on the contents of the file (the file
cannot be read, or its bytes do not decode), `LoadDocumentFromPath` returns
`FALSE` and the state is the one before the call, in every field. -/
theorem LoadDocumentFromPath_failure (path : List Nat) (contents : Option (List Nat))
    (st : AppState) (h : LoadTextFile contents = none) :
    LoadDocumentFromPath path (LoadTextFile contents) st = (false, st) := by
  rw [h]
  rfl

/-- Claim C14 at concrete inputs: a file that cannot be read, and a file whose
bytes FF FE 41 do not decode as UTF-16LE, in a session with a modified
document and history. -/
theorem LoadDocumentFromPath_failure_witness :
    LoadTextFile none = none ∧
    LoadDocumentFromPath (ascii "a.txt") (LoadTextFile none)
      (organicEdit (ascii "ab") 2 (organicEdit (ascii "a") 1 initialState))
      = (false, organicEdit (ascii "ab") 2 (organicEdit (ascii "a") 1 initialState)) ∧
    LoadTextFile (some [255, 254, 65]) = none ∧
    LoadDocumentFromPath (ascii "a.txt") (LoadTextFile (some [255, 254, 65]))
      (organicEdit (ascii "ab") 2 (organicEdit (ascii "a") 1 initialState))
      = (false, organicEdit (ascii "ab") 2 (organicEdit (ascii "a") 1 initialState)) :=
  ⟨by decide,
   LoadDocumentFromPath_failure _ none _ (by decide),
   by decide,
   LoadDocumentFromPath_failure _ (some [255, 254, 65]) _ (by decide)⟩

/-- Claim C15.  `DoUndo` on an empty undo stack and `DoRedo` on an empty redo
stack return the state they were given: text, cursor, both stacks, the guard
and every other field are unchanged.  Both are total functions. -/
theorem undo_redo_empty_noop (st : AppState) :
    (st.undoStack = [] → DoUndo st = st) ∧ (st.redoStack = [] → DoRedo st = st) :=
  ⟨DoUndo_nil st, DoRedo_nil st⟩

/-- Claim C15 at concrete inputs: undo at start-up, and redo after an edit. -/
theorem undo_redo_empty_noop_witness :
    initialState.undoStack = [] ∧ DoUndo initialState = initialState ∧
    (organicEdit (ascii "a") 1 initialState).redoStack = [] ∧
    DoRedo (organicEdit (ascii "a") 1 initialState) = organicEdit (ascii "a") 1 initialState :=
  ⟨by decide, (undo_redo_empty_noop initialState).1 (by decide), by decide,
   (undo_redo_empty_noop (organicEdit (ascii "a") 1 initialState)).2 (by decide)⟩

/-- Claim C16.  While the guard is set, `PushUndoStack` returns the state
unchanged, and `on_text_changed` and the notifications of
`gtk_text_buffer_set_text` leave both stacks as they are.  So `DoUndo` on a
non-empty undo stack removes exactly its last entry and appends exactly one
entry, the snapshot of the current document, to the redo stack, and `DoRedo`
does the mirror; the guard is clear when either returns after restoring, and
stays clear when it was clear before the call. -/
theorem guard_blocks_snapshots (st : AppState) (new : List Nat) :
    (st.isUndoRedoInProgress = true →
      PushUndoStack st = st ∧
      (on_text_changed st).undoStack = st.undoStack ∧
      (on_text_changed st).redoStack = st.redoStack ∧
      (gtk_text_buffer_set_text st new).undoStack = st.undoStack ∧
      (gtk_text_buffer_set_text st new).redoStack = st.redoStack) ∧
    (st.undoStack ≠ [] →
      (DoUndo st).undoStack = st.undoStack.dropLast ∧
      (DoUndo st).undoStack.length + 1 = st.undoStack.length ∧
      (DoUndo st).redoStack = st.redoStack ++ [CreateUndoEntry st] ∧
      (DoUndo st).redoStack.length = st.redoStack.length + 1 ∧
      (DoUndo st).isUndoRedoInProgress = false) ∧
    (st.redoStack ≠ [] →
      (DoRedo st).redoStack = st.redoStack.dropLast ∧
      (DoRedo st).redoStack.length + 1 = st.redoStack.length ∧
      (DoRedo st).undoStack = st.undoStack ++ [CreateUndoEntry st] ∧
      (DoRedo st).undoStack.length = st.undoStack.length + 1 ∧
      (DoRedo st).isUndoRedoInProgress = false) ∧
    (st.isUndoRedoInProgress = false →
      (DoUndo st).isUndoRedoInProgress = false ∧
      (DoRedo st).isUndoRedoInProgress = false) := by
  refine ⟨?_, ?_, ?_, ?_⟩
  · intro hg
    refine ⟨by simp [PushUndoStack, hg], ?_, ?_, ?_, ?_⟩
    · rw [on_text_changed_guarded st hg]
    · rw [on_text_changed_guarded st hg]
    · rw [set_text_guarded st new hg]
    · rw [set_text_guarded st new hg]
  · intro hu
    obtain ⟨us, e, hue⟩ := exists_concat_of_ne_nil _ hu
    rw [DoUndo_eq st us e hue, hue]
    simp [CreateUndoEntry, GetEditText]
  · intro hr
    obtain ⟨rs, e, hre⟩ := exists_concat_of_ne_nil _ hr
    rw [DoRedo_eq st rs e hre, hre]
    simp [CreateUndoEntry, GetEditText]
  · intro hg
    constructor
    · by_cases hu : st.undoStack = []
      · rw [DoUndo_nil st hu]; exact hg
      · obtain ⟨us, e, hue⟩ := exists_concat_of_ne_nil _ hu
        rw [DoUndo_eq st us e hue]
    · by_cases hr : st.redoStack = []
      · rw [DoRedo_nil st hr]; exact hg
      · obtain ⟨rs, e, hre⟩ := exists_concat_of_ne_nil _ hr
        rw [DoRedo_eq st rs e hre]

/-- Claim C16 at concrete inputs: a notification under the guard after two
edits, then an undo, and a redo after that undo. -/
theorem guard_blocks_snapshots_witness :
    (on_text_changed { runEdits [(ascii "a", 1), (ascii "ab", 2)] initialState with
        isUndoRedoInProgress := true }).undoStack
      = (runEdits [(ascii "a", 1), (ascii "ab", 2)] initialState).undoStack ∧
    (DoUndo (runEdits [(ascii "a", 1), (ascii "ab", 2)] initialState)).undoStack.length + 1
      = (runEdits [(ascii "a", 1), (ascii "ab", 2)] initialState).undoStack.length ∧
    (DoRedo (DoUndo (runEdits [(ascii "a", 1), (ascii "ab", 2)] initialState))).undoStack.length
      = (DoUndo (runEdits [(ascii "a", 1), (ascii "ab", 2)] initialState)).undoStack.length
        + 1 ∧
    (DoUndo initialState).isUndoRedoInProgress = false :=
  ⟨((guard_blocks_snapshots { runEdits [(ascii "a", 1), (ascii "ab", 2)] initialState with
        isUndoRedoInProgress := true } []).1 rfl).2.1,
   ((guard_blocks_snapshots (runEdits [(ascii "a", 1), (ascii "ab", 2)] initialState) []).2.1
      (by decide)).2.1,
   ((guard_blocks_snapshots
      (DoUndo (runEdits [(ascii "a", 1), (ascii "ab", 2)] initialState)) []).2.2.1
      (by decide)).2.2.2.1,
   ((guard_blocks_snapshots initialState []).2.2.2 (by decide)).1⟩

/-- Claim C17, which the code does not meet.  The document "éab" is valid
UTF-8 and holds three characters; the needle "a" is the character at offsets 1
to 2.  With the cursor at 0, `FindInEdit` returns the span 2 to 3, whose
character is "b": the byte offset of the match is handed out as a character
offset.  In the document "éa" with the cursor at its end, offset 2, the search
starts at byte 2, in front of the "a" that lies before the cursor, and the span
returned, 2 to 2, is empty. -/
theorem FindInEdit_span_not_needle :
    utf8Decode ([195, 169] ++ ascii "ab") = some [233, 97, 98] ∧
    FindInEdit (ascii "a") true true (docState ([195, 169] ++ ascii "ab") 0) = some (2, 3) ∧
    gtk_text_buffer_get_text (docState ([195, 169] ++ ascii "ab") 0) 2 3 = ascii "b" ∧
    gtk_text_buffer_get_text (docState ([195, 169] ++ ascii "ab") 0) 1 2 = ascii "a" ∧
    charCount ([195, 169] ++ ascii "a") = 2 ∧
    FindInEdit (ascii "a") true true (docState ([195, 169] ++ ascii "a") 2) = some (2, 2) ∧
    gtk_text_buffer_get_text (docState ([195, 169] ++ ascii "a") 2) 2 2 = [] := by
  decide

/-- Claim C18, which the code does not meet on text with multi-byte characters.
In the document "éab" the first occurrence of the needle "a" is the character
at offsets 1 to 2; a search with `searchDown` false returns the span 2 to 3,
the letter "b", wherever the cursor is. -/
theorem FindInEdit_backward_multibyte :
    gtk_text_buffer_get_text (docState ([195, 169] ++ ascii "ab") 3) 1 2 = ascii "a" ∧
    FindInEdit (ascii "a") true false (docState ([195, 169] ++ ascii "ab") 3) = some (2, 3) ∧
    FindInEdit (ascii "a") true false (docState ([195, 169] ++ ascii "ab") 0) = some (2, 3) ∧
    gtk_text_buffer_get_text (docState ([195, 169] ++ ascii "ab") 3) 2 3 = ascii "b" := by
  decide

/-- Claim C19.  In an ASCII document, when a forward `DoFindNext` succeeds and
selects a span, the insert mark is at the start of that span, and a second
forward `DoFindNext` with the same needle returns `TRUE`, selects the same span
and leaves the state as it is; so does every further repetition. -/
theorem DoFindNext_repeat (needle : List Nat) (st st1 : AppState) (sel : Nat × Nat)
    (ha : IsAscii st.text)
    (h : DoFindNext needle false st = { returned := true, selection := some sel, state := st1 }) :
    st1.cursor = sel.1 ∧
    DoFindNext needle false st1 = { returned := true, selection := some sel, state := st1 } ∧
    ∀ n, DoFindNext needle false ((fun s => (DoFindNext needle false s).state)^[n] st1)
      = { returned := true, selection := some sel, state := st1 } := by
  obtain ⟨a, b⟩ := sel
  have hne : needle ≠ [] := by
    intro hn; simp [DoFindNext, hn] at h
  have hfind : FindInEdit needle st.matchCase true st = some (a, b) ∧
      st1 = { st with cursor := a } := by
    unfold DoFindNext at h
    simp only [hne, if_false, Bool.not_false] at h
    cases hf : FindInEdit needle st.matchCase true st with
    | none => rw [hf] at h; simp at h
    | some r =>
      obtain ⟨x, y⟩ := r
      rw [hf] at h
      simp only [FindNextResult.mk.injEq, Option.some.injEq, Prod.mk.injEq, true_and,
        gtk_text_buffer_select_range] at h
      obtain ⟨⟨rfl, rfl⟩, hst⟩ := h
      exact ⟨rfl, hst.symm⟩
  obtain ⟨hf, hst1⟩ := hfind
  obtain ⟨-, hb, hpre⟩ := FindInEdit_found_ascii needle st.matchCase true st a b ha hf
  have hsecond : DoFindNext needle false st1
      = { returned := true, selection := some (a, b), state := st1 } := by
    have hf1 : FindInEdit needle st1.matchCase true st1 = some (a, b) := by
      have := FindInEdit_at_occurrence needle st1.matchCase st1 hne
        (by rw [hst1]; exact ha) (by rw [hst1]; exact hpre)
      rw [this, hb, hst1]
    unfold DoFindNext
    simp only [hne, if_false, Bool.not_false, hf1, gtk_text_buffer_select_range]
    rw [hst1]
  have hfix : (fun s => (DoFindNext needle false s).state) st1 = st1 := by
    simp only [hsecond]
  refine ⟨by rw [hst1], hsecond, ?_⟩
  intro n
  rw [Function.iterate_fixed hfix n]
  exact hsecond

/-- Claim C19 at a concrete input: in "a a" with the cursor at 0 the needle "a"
is found at 0 to 1, and again at 0 to 1; the occurrence at 2 is not reached. -/
theorem DoFindNext_repeat_witness :
    IsAscii (docState (ascii "a a") 0).text ∧
    (DoFindNext (ascii "a") false (docState (ascii "a a") 0)).selection = some (0, 1) ∧
    (DoFindNext (ascii "a") false
      (DoFindNext (ascii "a") false (docState (ascii "a a") 0)).state).selection
      = some (0, 1) ∧
    caseRule false (ascii "a") <+: (caseRule false (ascii "a a")).drop 2 := by
  have hasc : IsAscii (docState (ascii "a a") 0).text := by decide
  have h1 : DoFindNext (ascii "a") false (docState (ascii "a a") 0)
      = { returned := true, selection := some (0, 1),
          state := docState (ascii "a a") 0 } := by decide
  have h := DoFindNext_repeat (ascii "a") (docState (ascii "a a") 0)
    (docState (ascii "a a") 0) (0, 1) hasc h1
  refine ⟨hasc, by rw [h1], ?_, by decide⟩
  rw [h1]
  simp only []
  rw [h.2.1]

end Retropad
